import Mathlib

/-!
Verification development for the covid-19-data-visualization repository.

The development shallowly embeds the dataset-assembly pipeline of
`covid_dashboard/data_handler.py` (and its near-duplicate
`dashboard/scripts/data_handler.py`):

* dates are modelled as natural numbers (the source compares ISO-formatted
  `YYYY-MM-DD` strings, whose lexicographic order coincides with chronological
  order, and `pd.date_range(lo, hi)` yields every day between them);
* per-day case/death counts are natural numbers (the feed carries counts);
* float columns that can hold NaN or infinity are modelled by the `Val` type
  with the IEEE-style semantics pandas uses for division, `fillna`, and
  equality tests against `math.inf`;
* a pandas `None`/failed fetch is an `Option` that is `none`;
* `sort_values` is modelled by a stable sort (insertion sort);
* a function body that can raise (`.iloc[0]` on an empty selection,
  `pd.concat` on an empty list of frames) returns `none` at the raising point.
-/

namespace Covid

/-- Model of a pandas float cell: a rational number, an infinity, or NaN. -/
inductive Val where
  | num (q : ℚ)
  | inf
  | ninf
  | nan
deriving DecidableEq, Repr, Inhabited

/-- Pandas/numpy float division: `x / 0` is `±inf` for `x ≠ 0` and NaN for
`0 / 0`; otherwise exact rational division. -/
def divVal (n d : ℚ) : Val :=
  if d = 0 then
    if 0 < n then Val.inf
    else if n < 0 then Val.ninf
    else Val.nan
  else Val.num (n / d)

/-- Model of `Series.fillna(0)` on a single cell: NaN becomes 0. -/
def fillna0 : Val → Val
  | Val.nan => Val.num 0
  | v => v

/-- Model of `Series.pct_change()` on one step: `(cur - prev) / prev` with
pandas float-division semantics. -/
def pctChange (prev cur : Nat) : Val :=
  divVal ((cur : ℚ) - (prev : ℚ)) ((prev : ℚ))

/-- One row of the raw ECDC feed after the column renaming of
`get_latest_ecdc_data` (source columns: date_rep, day, month, year, cases,
deaths, country, alpha_2_code, alpha_3_code, population_2018).
`alpha_3_code` may be missing (NaN) and `population_2018` may be NaN. -/
structure RawRow where
  date_rep : Nat
  day : Nat
  month : Nat
  year : Nat
  cases : Nat
  deaths : Nat
  country : String
  alpha_2_code : String
  alpha_3_code : Option String
  population_2018 : Option ℚ
deriving DecidableEq, Repr

/-- One row of the Wikipedia ISO country-code table after header
normalisation, restricted to the columns the pipeline reads. -/
structure IsoRow where
  country_name : String
  alpha_2_code : String
  alpha_3_code : String
deriving DecidableEq, Repr

/-- One row of the regions/continents table, restricted to the columns
selected by the merge in `create_country_level_dataset`. -/
structure RegionRow where
  iso_alpha3_code : String
  region_1 : String
  region_2 : String
  continent : String
deriving DecidableEq, Repr

/-- One row of the working/out dataframe of `create_country_level_dataset`.
Columns that are added later in the pipeline (cumulative counts, indicators,
region labels) start at defaults and are overwritten by the corresponding
stage, mirroring assignment of new dataframe columns. -/
structure Row where
  date_rep : Nat
  cases : Nat
  deaths : Nat
  country : String
  alpha_2_code : String
  alpha_3_code : String
  population_2018 : Option ℚ
  cum_cases : Nat
  cum_deaths : Nat
  mortality_rate : Val
  fraction_infected : Val
  fraction_deaths : Val
  infections_growth_rate : Val
  deaths_growth_rate : Val
  region_1 : Option String
  region_2 : Option String
  continent : Option String
deriving DecidableEq, Repr, Inhabited

/-! ## Source Fetcher: `get_latest_ecdc_data` retry loop (lines 92-115) -/

/-- The date-walking retry loop of `get_latest_ecdc_data`: a first request at
`date`; while the response is not OK and more than one consecutive date
remains, step the date by one day and retry.  Returns the list of attempted
dates together with the date whose fetch succeeded (`none` when all attempts
failed, which makes the source function return `None`).  `fuel` carries the
current value of the `max_consecutive_dates` counter. -/
def ecdcLoop (success : Int → Bool) (step : Int) : Int → Nat → List Int × Option Int
  | date, fuel =>
    if success date then ([date], some date)
    else if fuel ≤ 1 then ([date], none)
    else
      let rest := ecdcLoop success step (date + step) (fuel - 1)
      (date :: rest.1, rest.2)

/-- Model of `get_latest_ecdc_data` restricted to its retry behaviour: the
network is abstracted by the `success` predicate on (integer-coded) dates;
`walk_back` chooses the stepping direction; a non-positive
`max_consecutive_dates` still performs the initial request. -/
def get_latest_ecdc_data (success : Int → Bool) (as_at_date : Int)
    (max_consecutive_dates : Int) (walk_back : Bool) : List Int × Option Int :=
  ecdcLoop success (if walk_back then -1 else 1) as_at_date max_consecutive_dates.toNat

/-! ## Source Fetcher: `get_iso_country_codes_data` (lines 142-157) -/

/-- Model of `get_iso_country_codes_data` from the parsed HTML table onward.
Line 149 overwrites the `alpha_2_code` cell of the first row with `"AF"`
(`.iloc[0]` raises on an empty table, modelled by `none`).  With
`matching_length` set, rows whose `alpha_3_code` is longer than 3 characters
are kept in the dropped-rows holder (`self.iso_country_codes_dropped`, the
second component) and only rows of length exactly 3 are returned. -/
def get_iso_country_codes_data (table : List IsoRow) (matching_length : Bool) :
    Option (List IsoRow × Option (List IsoRow)) :=
  match table with
  | [] => none
  | r0 :: rest =>
    let df := { r0 with alpha_2_code := "AF" } :: rest
    if matching_length then
      let df_dropped := df.filter (fun r => 3 < r.alpha_3_code.length)
      let df_kept := df.filter (fun r => r.alpha_3_code.length = 3)
      some (df_kept, some df_dropped)
    else
      some (df, none)

/-! ## Panel Densifier and Indicator Engine: `create_country_level_dataset` -/

/-- Lines 206-211: copy the feed, drop the day/month/year columns, initialise
the cumulative columns, and drop rows whose `alpha_3_code` is missing. -/
def prepare (df_ecdc : List RawRow) : List Row :=
  df_ecdc.filterMap (fun r =>
    match r.alpha_3_code with
    | none => none
    | some a3 =>
      some { date_rep := r.date_rep, cases := r.cases, deaths := r.deaths,
             country := r.country, alpha_2_code := r.alpha_2_code,
             alpha_3_code := a3, population_2018 := r.population_2018,
             cum_cases := 0, cum_deaths := 0,
             mortality_rate := Val.nan, fraction_infected := Val.nan,
             fraction_deaths := Val.nan, infections_growth_rate := Val.nan,
             deaths_growth_rate := Val.nan,
             region_1 := none, region_2 := none, continent := none })

/-- Line 214: `pd.date_range(df.date_rep.min(), df.date_rep.max())`, the full
closed range of dates observed in the prepared feed. -/
def allDates (df : List Row) : List Nat :=
  match df.map (fun r => r.date_rep) with
  | [] => []
  | d :: ds => List.range' (ds.foldl min d) (ds.foldl max d + 1 - ds.foldl min d)

/-- Model of `Series.unique()`: the distinct values in first-appearance
order. -/
def uniqueKeys : List String → List String :=
  fun l => l.foldl (fun acc c => if c ∈ acc then acc else acc ++ [c]) []

/-- Comparison used by `sort_values(by="date_rep")`. -/
def dateLe (a b : Row) : Bool := a.date_rep ≤ b.date_rep

/-- Stable insertion of a row into an already sorted list: the row goes
before the first element it compares less-or-equal to, hence after every
earlier row with an equal key. -/
def insertRow (le : Row → Row → Bool) (r : Row) : List Row → List Row
  | [] => [r]
  | x :: xs => if le r x then r :: x :: xs else x :: insertRow le r xs

/-- Model of pandas `sort_values`: a stable sort of the rows by the given
comparison (insertion sort; pandas sorts a dataframe by key columns, and the
claims do not observe the unspecified order of rows with equal keys beyond
stability). -/
def sort_values (le : Row → Row → Bool) : List Row → List Row
  | [] => []
  | a :: l => insertRow le a (sort_values le l)

/-- Lines 234-236: running cumulative sums of `cases` and `deaths` along the
rows, with accumulators `cc`/`cd`. -/
def addCums (cc cd : Nat) : List Row → List Row
  | [] => []
  | r :: rs =>
    { r with cum_cases := cc + r.cases, cum_deaths := cd + r.deaths }
      :: addCums (cc + r.cases) (cd + r.deaths) rs

/-- Lines 221-236, the body of the per-country try-block: select the rows of
one country, synthesise zero-valued rows for the dates of the global range
the country did not report (static attributes copied from the country's first
row, `.iloc[0]`, whose lookup on an empty selection raises, modelled by
`none`), sort by date and compute cumulative sums. -/
def fillCountry (all_dates : List Nat) (df : List Row) (alpha_3_code : String) :
    Option (List Row) :=
  match df.filter (fun r => r.alpha_3_code == alpha_3_code) with
  | [] => none
  | r0 :: rest =>
    let df_country := r0 :: rest
    let dates_to_add :=
      all_dates.filter (fun d => !(df_country.any (fun r => r.date_rep == d)))
    let df_to_add := dates_to_add.map (fun d =>
      { r0 with date_rep := d, cases := 0, deaths := 0 })
    some (addCums 0 0 (sort_values dateLe (df_country ++ df_to_add)))

/-- Lines 218-239: the loop over `df.alpha_3_code.unique()`.  The try/except
catches any exception raised while synthesising one country, prints a message
and moves on; `synth c = none` models a raising body.  Returns the collected
frames together with the codes whose synthesis failed (the printed log). -/
def densifyLoop (synth : String → Option (List Row)) :
    List String → List (List Row) × List String
  | [] => ([], [])
  | c :: cs =>
    let rest := densifyLoop synth cs
    match synth c with
    | some f => (f :: rest.1, rest.2)
    | none => (rest.1, c :: rest.2)

/-- Lines 242-249: the frame built for one country of the ISO table that is
absent from the feed: every date of the range with zero counts, codes and
name from the ISO table, population set to NaN.  The source builds this frame
inside the missing-countries loop but never appends it to `frames`. -/
def missingCountryFrame (all_dates : List Nat) (df_iso : List IsoRow)
    (alpha_3_code : String) : Option (List Row) :=
  match df_iso.filter (fun r => r.alpha_3_code == alpha_3_code) with
  | [] => none
  | i0 :: _ =>
    some (all_dates.map (fun d =>
      { date_rep := d, cases := 0, deaths := 0, cum_cases := 0, cum_deaths := 0,
        country := i0.country_name, alpha_2_code := i0.alpha_2_code,
        alpha_3_code := i0.alpha_3_code, population_2018 := none,
        mortality_rate := Val.nan, fraction_infected := Val.nan,
        fraction_deaths := Val.nan, infections_growth_rate := Val.nan,
        deaths_growth_rate := Val.nan,
        region_1 := none, region_2 := none, continent := none }))

/-- Lexicographic strict comparison of character lists by code point,
mirroring the string order pandas sorts by. -/
def charListLt : List Char → List Char → Bool
  | [], [] => false
  | [], _ :: _ => true
  | _ :: _, [] => false
  | a :: as, b :: bs =>
    if a.toNat < b.toNat then true
    else if b.toNat < a.toNat then false
    else charListLt as bs

/-- Strict code-point lexicographic comparison of strings. -/
def stringLt (a b : String) : Bool := charListLt a.data b.data

/-- Comparison used by `sort_values(by=["country", "date_rep"])`:
lexicographic on the display name, then the date. -/
def countryDateLe (a b : Row) : Bool :=
  stringLt a.country b.country ||
    (decide (a.country = b.country) && decide (a.date_rep ≤ b.date_rep))

/-- Value of `df.date_rep.min()` over a panel (0 on an empty panel, where the
source would raise earlier). -/
def panelMinDate (l : List Row) : Nat :=
  match l.map (fun r => r.date_rep) with
  | [] => 0
  | d :: ds => ds.foldl min d

/-- Division of a count by the population column: a NaN population
propagates NaN. -/
def popDiv (n : Nat) (pop : Option ℚ) : Val :=
  match pop with
  | none => Val.nan
  | some p => divVal (n : ℚ) p

/-- Lines 256-263 for one row: mortality rate (`fillna(0)` of
cum_deaths/cum_cases), population fractions, and the two growth-rate columns.
`pct_change` pairs each row with the immediately preceding row of the sorted
dataframe (`prev`, `none` on the first row where pandas yields NaN); the mask
of lines 261-263 then replaces the value by NaN on rows whose date is the
panel-wide minimum date `m` and on rows where the value equals `math.inf`. -/
def setIndicators (m : Nat) (prev : Option Row) (r : Row) : Row :=
  let raw_igr := match prev with
    | none => Val.nan
    | some p => pctChange p.cum_cases r.cum_cases
  let raw_dgr := match prev with
    | none => Val.nan
    | some p => pctChange p.cum_deaths r.cum_deaths
  { r with
    mortality_rate := fillna0 (divVal (r.cum_deaths : ℚ) (r.cum_cases : ℚ)),
    fraction_infected := popDiv r.cum_cases r.population_2018,
    fraction_deaths := popDiv r.cum_deaths r.population_2018,
    infections_growth_rate :=
      if r.date_rep = m ∨ raw_igr = Val.inf then Val.nan else raw_igr,
    deaths_growth_rate :=
      if r.date_rep = m ∨ raw_dgr = Val.inf then Val.nan else raw_dgr }

/-- Column-wise indicator computation threaded along the rows, carrying the
previous row for `pct_change`. -/
def addGrowth (m : Nat) : Option Row → List Row → List Row
  | _, [] => []
  | prev, r :: rs => setIndicators m prev r :: addGrowth m (some r) rs

/-- Lines 256-263 applied to the whole sorted panel. -/
def addIndicators (l : List Row) : List Row :=
  addGrowth (panelMinDate l) none l

/-- The merge result for one left row: a row with no match keeps NaN region
labels; a row with several matching region rows is duplicated, one copy per
match, in table order. -/
def mergeRow (df_regions : List RegionRow) (r : Row) : List Row :=
  match df_regions.filter (fun g => g.iso_alpha3_code == r.alpha_3_code) with
  | [] => [{ r with region_1 := none, region_2 := none, continent := none }]
  | g :: gs =>
    (g :: gs).map (fun g2 =>
      { r with region_1 := some g2.region_1, region_2 := some g2.region_2,
               continent := some g2.continent })

/-- Lines 266-267: left merge with the regions table on the alpha-3 code,
preserving the left order. -/
def mergeRegions (df_regions : List RegionRow) (l : List Row) : List Row :=
  l.flatMap (mergeRow df_regions)

/-- Line 268: the fixed continent override table, in insertion order. -/
def country_exceptions : List (String × String) :=
  [("Kosovo", "Europe"), ("Taiwan", "Asia"), ("Bonaire", "South America")]

/-- Lines 269-270: for each exception, force the continent of every row whose
display name equals the exception key. -/
def applyOverrides (l : List Row) : List Row :=
  country_exceptions.foldl
    (fun acc ce => acc.map (fun r =>
      if r.country = ce.1 then { r with continent := some ce.2 } else r))
    l

/-- Character-level model of `str.replace("_", " ")`. -/
def underscoreToSpace (c : Char) : Char := if c = '_' then ' ' else c

/-- Replacement of every underscore of a display name by a space. -/
def replaceUnderscores (s : String) : String :=
  String.mk (s.data.map underscoreToSpace)

/-- Line 271: normalise the display names of all rows. -/
def replaceNames (l : List Row) : List Row :=
  l.map (fun r => { r with country := replaceUnderscores r.country })

/-- The static method `create_country_level_dataset` (lines 184-273), with
the body of the per-country try-block abstracted as `synth` (the source
instantiates it with `fillCountry`; the try/except treats any raising body
uniformly).  Returns `none` when an input dataframe is `None` (lines 200-203)
and when `pd.concat` is applied to an empty list of frames (which raises). -/
def createFromSynth
    (synth : List Nat → List Row → String → Option (List Row))
    (df_ecdc : Option (List RawRow)) (df_iso : Option (List IsoRow))
    (df_regions : Option (List RegionRow)) : Option (List Row) :=
  match df_ecdc, df_iso, df_regions with
  | some ecdc, some iso, some regions =>
    let df := prepare ecdc
    let all_dates := allDates df
    let missing_countries :=
      (iso.map (fun r => r.alpha_3_code)).filter
        (fun c => !(ecdc.any (fun r => r.alpha_3_code == some c)))
    let frames :=
      (densifyLoop (synth all_dates df) (uniqueKeys (df.map (fun r => r.alpha_3_code)))).1
    -- Lines 241-249 iterate over `missing_countries` building
    -- `missingCountryFrame` for each code, but never append the result to
    -- `frames`; the built frames are discarded.
    let _ := missing_countries.map (fun c => missingCountryFrame all_dates iso c)
    match frames with
    | [] => none
    | f :: fs =>
      some (replaceNames (applyOverrides (mergeRegions regions
        (addIndicators (sort_values countryDateLe ((f :: fs).flatten))))))
  | _, _, _ => none

/-- The source's `create_country_level_dataset`: the try-block body is the
per-country synthesis `fillCountry`. -/
def create_country_level_dataset :
    Option (List RawRow) → Option (List IsoRow) → Option (List RegionRow) →
    Option (List Row) :=
  createFromSynth fillCountry

/-! ## Dataset Assembler: `generate_country_level_dataset` (lines 47-63) -/

/-- Lines 56-57: `[ds for ds in data_sets if ds is None]`, as printed by the
integrity-check message — each missing dataset contributes the string
`"None"` to the reported list. -/
def integrityCheckRepr (raw : Option (List RawRow)) (iso : Option (List IsoRow))
    (regions : Option (List RegionRow)) : List String :=
  (if raw.isNone then ["None"] else []) ++
    (if iso.isNone then ["None"] else []) ++
      (if regions.isNone then ["None"] else [])

/-- Lines 55-63 of `generate_country_level_dataset`, taking the three fetch
results as inputs: if the integrity check finds a missing input, print the
report and return `None`; otherwise assemble the panel. -/
def generate_country_level_dataset (raw : Option (List RawRow))
    (iso : Option (List IsoRow)) (regions : Option (List RegionRow)) :
    Option (List Row) :=
  if (integrityCheckRepr raw iso regions).length ≠ 0 then none
  else create_country_level_dataset raw iso regions

/-! ## Projections and relations used by the verification statements -/

/-- Projection of a row to the fields untouched by the indicator pass. -/
def coreOf (r : Row) : Nat × Nat × Nat × Nat × Nat × String × String × String × Option ℚ :=
  (r.date_rep, r.cases, r.deaths, r.cum_cases, r.cum_deaths, r.country,
    r.alpha_2_code, r.alpha_3_code, r.population_2018)

/-- Both growth-rate cells of a row are null (NaN). -/
def growthNull (r : Row) : Prop :=
  r.infections_growth_rate = Val.nan ∧ r.deaths_growth_rate = Val.nan

/-- Adjacency property formalising the growth-rate claim on the assembled
panel: across an entity boundary the next row's growth rates are null, and
within an entity a zero previous cumulative value forces a null growth
rate. -/
def c3Step (a b : Row) : Prop :=
  (a.alpha_3_code ≠ b.alpha_3_code → growthNull b) ∧
  (a.alpha_3_code = b.alpha_3_code →
    (a.cum_cases = 0 → b.infections_growth_rate = Val.nan) ∧
    (a.cum_deaths = 0 → b.deaths_growth_rate = Val.nan))

/-- Adjacency property of the sorted panel before the indicator pass:
entity changes happen only at rows carrying the panel minimum date `m`, and
within an entity the cumulative counters are monotone. -/
def c3Pre (m : Nat) (a b : Row) : Prop :=
  (a.alpha_3_code ≠ b.alpha_3_code → b.date_rep = m) ∧
  (a.alpha_3_code = b.alpha_3_code →
    a.cum_cases ≤ b.cum_cases ∧ a.cum_deaths ≤ b.cum_deaths)

/-- Row-wise invariant after the indicator pass: a zero cumulative counter or
the panel minimum date forces null growth rates. -/
def rowInv (m : Nat) (r : Row) : Prop :=
  (r.cum_cases = 0 → r.infections_growth_rate = Val.nan) ∧
  (r.cum_deaths = 0 → r.deaths_growth_rate = Val.nan) ∧
  (r.date_rep = m → growthNull r)

/-- Projection of a row to the fields untouched by the region merge. -/
def exceptRegions (r : Row) : Row :=
  { r with region_1 := none, region_2 := none, continent := none }

/-- The effect of the three sequential continent overrides on one row
(the keys are pairwise distinct, so the folded maps compose to this
one-row function). -/
def overrideOne (r : Row) : Row :=
  if r.country = "Kosovo" then { r with continent := some "Europe" }
  else if r.country = "Taiwan" then { r with continent := some "Asia" }
  else if r.country = "Bonaire" then { r with continent := some "South America" }
  else r

/-- Convenience constructor for concrete raw feed rows used by the concrete
verification instances (the day/month/year columns are dropped by the
pipeline immediately). -/
def sampleRaw (ctry a2 : String) (a3 : Option String) (d c dth : Nat)
    (pop : Option ℚ) : RawRow :=
  { date_rep := d, day := 1, month := 1, year := 2020, cases := c, deaths := dth,
    country := ctry, alpha_2_code := a2, alpha_3_code := a3, population_2018 := pop }

/-! ## Generic helper lemmas -/

/-- Transitivity of the date comparison used for the per-country sort. -/
lemma dateLe_trans (a b c : Row) (hab : dateLe a b = true) (hbc : dateLe b c = true) :
    dateLe a c = true := by
  simp only [dateLe, decide_eq_true_eq] at *
  omega

/-- Totality of the date comparison used for the per-country sort. -/
lemma dateLe_total (a b : Row) : (dateLe a b || dateLe b a) = true := by
  simp only [dateLe, Bool.or_eq_true, decide_eq_true_eq]
  omega

/-- Transitivity of the character-list comparison. -/
lemma charListLt_trans : ∀ (x y z : List Char), charListLt x y = true →
    charListLt y z = true → charListLt x z = true := by
  intro x
  induction x with
  | nil =>
    intro y z hxy hyz
    cases z with
    | nil =>
      cases y with
      | nil => simp [charListLt] at hxy
      | cons b bs => simp [charListLt] at hyz
    | cons c cs => simp [charListLt]
  | cons a as ih =>
    intro y z hxy hyz
    cases y with
    | nil => simp [charListLt] at hxy
    | cons b bs =>
      cases z with
      | nil => simp [charListLt] at hyz
      | cons c cs =>
        simp only [charListLt] at hxy hyz ⊢
        by_cases h1 : a.toNat < b.toNat
        · by_cases h2 : b.toNat < c.toNat
          · rw [if_pos (Nat.lt_trans h1 h2)]
          · rw [if_neg h2] at hyz
            by_cases h3 : c.toNat < b.toNat
            · rw [if_pos h3] at hyz
              simp at hyz
            · rw [if_neg h3] at hyz
              have hbc : b.toNat = c.toNat :=
                Nat.le_antisymm (Nat.le_of_not_lt h3) (Nat.le_of_not_lt h2)
              rw [if_pos (hbc ▸ h1)]
        · rw [if_neg h1] at hxy
          by_cases h4 : b.toNat < a.toNat
          · rw [if_pos h4] at hxy
            simp at hxy
          · rw [if_neg h4] at hxy
            have hab : a.toNat = b.toNat :=
              Nat.le_antisymm (Nat.le_of_not_lt h4) (Nat.le_of_not_lt h1)
            by_cases h2 : b.toNat < c.toNat
            · rw [if_pos (hab ▸ h2)]
            · rw [if_neg h2] at hyz
              by_cases h3 : c.toNat < b.toNat
              · rw [if_pos h3] at hyz
                simp at hyz
              · rw [if_neg h3] at hyz
                rw [if_neg (hab ▸ h2), if_neg (hab ▸ h3)]
                exact ih bs cs hxy hyz

/-- Irreflexivity of the character-list comparison. -/
lemma charListLt_irrefl : ∀ x : List Char, charListLt x x = false := by
  intro x
  induction x with
  | nil => rfl
  | cons a as ih =>
    simp only [charListLt]
    rw [if_neg (Nat.lt_irrefl _), if_neg (Nat.lt_irrefl _)]
    exact ih

/-- Asymmetry of the character-list comparison. -/
lemma charListLt_asymm : ∀ (x y : List Char), charListLt x y = true →
    charListLt y x = false := by
  intro x
  induction x with
  | nil =>
    intro y hxy
    cases y with
    | nil => simp [charListLt] at hxy
    | cons b bs => simp [charListLt]
  | cons a as ih =>
    intro y hxy
    cases y with
    | nil => simp [charListLt] at hxy
    | cons b bs =>
      simp only [charListLt] at hxy ⊢
      by_cases h1 : a.toNat < b.toNat
      · rw [if_neg (Nat.lt_asymm h1), if_pos h1]
      · rw [if_neg h1] at hxy
        by_cases h2 : b.toNat < a.toNat
        · rw [if_pos h2] at hxy
          simp at hxy
        · rw [if_neg h2] at hxy
          rw [if_neg h2, if_neg h1]
          exact ih bs hxy

/-- Connexity of the character-list comparison: mutually incomparable lists
are equal. -/
lemma charListLt_connex : ∀ (x y : List Char), charListLt x y = false →
    charListLt y x = false → x = y := by
  intro x
  induction x with
  | nil =>
    intro y hxy _
    cases y with
    | nil => rfl
    | cons b bs => simp [charListLt] at hxy
  | cons a as ih =>
    intro y hxy hyx
    cases y with
    | nil => simp [charListLt] at hyx
    | cons b bs =>
      simp only [charListLt] at hxy hyx
      by_cases h1 : a.toNat < b.toNat
      · rw [if_pos h1] at hxy
        simp at hxy
      · by_cases h2 : b.toNat < a.toNat
        · rw [if_pos h2] at hyx
          simp at hyx
        · rw [if_neg h1, if_neg h2] at hxy
          rw [if_neg h2, if_neg h1] at hyx
          have htn : a.toNat = b.toNat :=
            Nat.le_antisymm (Nat.le_of_not_lt h2) (Nat.le_of_not_lt h1)
          have hchar : a = b := by
            apply Char.ext
            apply UInt32.eq_of_toBitVec_eq
            apply BitVec.eq_of_toNat_eq
            exact htn
          rw [hchar, ih bs hxy hyx]

/-- Transitivity of the string comparison. -/
lemma stringLt_trans {a b c : String} (hab : stringLt a b = true)
    (hbc : stringLt b c = true) : stringLt a c = true :=
  charListLt_trans a.data b.data c.data hab hbc

/-- Irreflexivity of the string comparison. -/
lemma stringLt_irrefl (a : String) : stringLt a a = false :=
  charListLt_irrefl a.data

/-- Asymmetry of the string comparison. -/
lemma stringLt_asymm {a b : String} (h : stringLt a b = true) :
    stringLt b a = false :=
  charListLt_asymm a.data b.data h

/-- Mutually incomparable strings are equal. -/
lemma stringLt_connex {a b : String} (hab : stringLt a b = false)
    (hba : stringLt b a = false) : a = b := by
  have hdata : a.data = b.data := charListLt_connex a.data b.data hab hba
  cases a with
  | mk ad =>
    cases b with
    | mk bd =>
      simp only [String.data] at hdata
      rw [hdata]

/-- Transitivity of the (country, date) lexicographic comparison. -/
lemma countryDateLe_trans (a b c : Row) (hab : countryDateLe a b = true)
    (hbc : countryDateLe b c = true) : countryDateLe a c = true := by
  simp only [countryDateLe, Bool.or_eq_true, Bool.and_eq_true, decide_eq_true_eq] at *
  rcases hab with h1 | ⟨h1, h2⟩ <;> rcases hbc with h3 | ⟨h3, h4⟩
  · exact Or.inl (stringLt_trans h1 h3)
  · exact Or.inl (by rw [← h3]; exact h1)
  · exact Or.inl (by rw [h1]; exact h3)
  · exact Or.inr ⟨h1.trans h3, le_trans h2 h4⟩

/-- Totality of the (country, date) lexicographic comparison. -/
lemma countryDateLe_total (a b : Row) : (countryDateLe a b || countryDateLe b a) = true := by
  simp only [countryDateLe, Bool.or_eq_true, Bool.and_eq_true, decide_eq_true_eq]
  by_cases h1 : stringLt a.country b.country = true
  · exact Or.inl (Or.inl h1)
  · by_cases h2 : stringLt b.country a.country = true
    · exact Or.inr (Or.inl h2)
    · have he : a.country = b.country :=
        stringLt_connex (by simpa using h1) (by simpa using h2)
      rcases Nat.le_total a.date_rep b.date_rep with hd | hd
      · exact Or.inl (Or.inr ⟨he, hd⟩)
      · exact Or.inr (Or.inr ⟨he.symm, hd⟩)

/-- Any two sorted-comparable rows have strictly ordered or equal display
names. -/
lemma countryDateLe_cases {a b : Row} (h : countryDateLe a b = true) :
    stringLt a.country b.country = true ∨ a.country = b.country := by
  simp only [countryDateLe, Bool.or_eq_true, Bool.and_eq_true, decide_eq_true_eq] at h
  rcases h with h | ⟨h, _⟩
  · exact Or.inl h
  · exact Or.inr h

/-- Rows with equal country compare by date under the lexicographic order. -/
lemma countryDateLe_date_le {a b : Row} (h : countryDateLe a b = true)
    (hc : a.country = b.country) : a.date_rep ≤ b.date_rep := by
  simp only [countryDateLe, Bool.or_eq_true, Bool.and_eq_true, decide_eq_true_eq] at h
  rcases h with h | ⟨_, h2⟩
  · rw [hc, stringLt_irrefl] at h
    exact absurd h (by simp)
  · exact h2

/-- Folding `min` over a list yields a lower bound of the seed. -/
lemma foldl_min_le_seed (l : List Nat) : ∀ d : Nat, l.foldl min d ≤ d := by
  induction l with
  | nil => intro d; exact le_refl d
  | cons x xs ih =>
    intro d
    exact le_trans (ih (min d x)) (min_le_left d x)

/-- Folding `min` over a list yields a lower bound of every element. -/
lemma foldl_min_le_mem (l : List Nat) : ∀ d x, x ∈ l → l.foldl min d ≤ x := by
  induction l with
  | nil => intro d x hx; exact absurd hx (List.not_mem_nil x)
  | cons y ys ih =>
    intro d x hx
    rcases List.mem_cons.1 hx with rfl | hx
    · exact le_trans (foldl_min_le_seed ys (min d x)) (min_le_right d x)
    · exact ih (min d y) x hx

/-- The fold of `min` is attained by the seed or by an element. -/
lemma foldl_min_attained (l : List Nat) : ∀ d, l.foldl min d = d ∨ l.foldl min d ∈ l := by
  induction l with
  | nil => intro d; exact Or.inl rfl
  | cons x xs ih =>
    intro d
    rcases ih (min d x) with h | h
    · rcases Nat.le_total d x with hdx | hdx
      · left
        show List.foldl min (min d x) xs = d
        rw [h, min_eq_left hdx]
      · right
        show List.foldl min (min d x) xs ∈ x :: xs
        rw [h, min_eq_right hdx]
        exact List.mem_cons_self x xs
    · right
      exact List.mem_cons_of_mem x h

/-- The seed bounds the fold of `max` from below. -/
lemma seed_le_foldl_max (l : List Nat) : ∀ d : Nat, d ≤ l.foldl max d := by
  induction l with
  | nil => intro d; exact le_refl d
  | cons x xs ih =>
    intro d
    exact le_trans (le_max_left d x) (ih (max d x))

/-- Every element bounds the fold of `max` from below. -/
lemma mem_le_foldl_max (l : List Nat) : ∀ d x, x ∈ l → x ≤ l.foldl max d := by
  induction l with
  | nil => intro d x hx; exact absurd hx (List.not_mem_nil x)
  | cons y ys ih =>
    intro d x hx
    rcases List.mem_cons.1 hx with rfl | hx
    · exact le_trans (le_max_right d x) (seed_le_foldl_max ys (max d x))
    · exact ih (max d y) x hx

/-- Pairwise facts about a filtered list pull back to conditional pairwise
facts about the original list. -/
lemma pairwise_pullback_filter {α : Type} (p : α → Bool) (R : α → α → Prop) :
    ∀ l : List α, List.Pairwise R (l.filter p) →
      List.Pairwise (fun a b => p a = true → p b = true → R a b) l := by
  intro l
  induction l with
  | nil => intro _; exact List.Pairwise.nil
  | cons a t ih =>
    intro h
    by_cases hp : p a = true
    · rw [List.filter_cons_of_pos hp] at h
      rcases List.pairwise_cons.1 h with ⟨hhead, htail⟩
      refine List.pairwise_cons.2 ⟨?_, ih htail⟩
      intro b hb _ hpb
      exact hhead b (List.mem_filter.2 ⟨hb, hpb⟩)
    · rw [List.filter_cons_of_neg hp] at h
      refine List.pairwise_cons.2 ⟨?_, ih h⟩
      intro b _ hpa _
      exact absurd hpa hp

/-! ## Lemmas about `addCums` -/

/-- The cumulative-sum pass does not change the dates of the rows. -/
lemma addCums_map_date (l : List Row) : ∀ cc cd,
    (addCums cc cd l).map (fun r => r.date_rep) = l.map (fun r => r.date_rep) := by
  induction l with
  | nil => intro cc cd; rfl
  | cons r rs ih =>
    intro cc cd
    simp only [addCums, List.map_cons, ih]

/-- The cumulative-sum pass does not change the alpha-3 codes of the rows. -/
lemma addCums_map_code (l : List Row) : ∀ cc cd,
    (addCums cc cd l).map (fun r => r.alpha_3_code) = l.map (fun r => r.alpha_3_code) := by
  induction l with
  | nil => intro cc cd; rfl
  | cons r rs ih =>
    intro cc cd
    simp only [addCums, List.map_cons, ih]

/-- The cumulative-sum pass does not change the country names of the rows. -/
lemma addCums_map_country (l : List Row) : ∀ cc cd,
    (addCums cc cd l).map (fun r => r.country) = l.map (fun r => r.country) := by
  induction l with
  | nil => intro cc cd; rfl
  | cons r rs ih =>
    intro cc cd
    simp only [addCums, List.map_cons, ih]

/-- Every row produced by the cumulative-sum pass agrees with a source row on
all fields other than the cumulative counters. -/
lemma addCums_mem (l : List Row) : ∀ cc cd r2, r2 ∈ addCums cc cd l →
    ∃ r ∈ l, r2.date_rep = r.date_rep ∧ r2.alpha_3_code = r.alpha_3_code ∧
      r2.country = r.country ∧ r2.population_2018 = r.population_2018 := by
  induction l with
  | nil => intro cc cd r2 h; exact absurd h (List.not_mem_nil r2)
  | cons r rs ih =>
    intro cc cd r2 h
    rcases List.mem_cons.1 h with rfl | h
    · exact ⟨r, List.mem_cons_self r rs, rfl, rfl, rfl, rfl⟩
    · rcases ih _ _ r2 h with ⟨r0, hr0, he⟩
      exact ⟨r0, List.mem_cons_of_mem r hr0, he⟩

/-- The accumulators bound every cumulative value produced by `addCums`. -/
lemma addCums_acc_le (l : List Row) : ∀ cc cd r2, r2 ∈ addCums cc cd l →
    cc ≤ r2.cum_cases ∧ cd ≤ r2.cum_deaths := by
  induction l with
  | nil => intro cc cd r2 h; exact absurd h (List.not_mem_nil r2)
  | cons r rs ih =>
    intro cc cd r2 h
    rcases List.mem_cons.1 h with rfl | h
    · constructor <;> simp
    · rcases ih (cc + r.cases) (cd + r.deaths) r2 h with ⟨h1, h2⟩
      exact ⟨le_trans (Nat.le_add_right cc r.cases) h1,
             le_trans (Nat.le_add_right cd r.deaths) h2⟩

/-- Along the rows produced by `addCums`, dates stay sorted and the
cumulative counters never decrease. -/
lemma addCums_pairwise (l : List Row)
    (hs : List.Pairwise (fun a b => a.date_rep ≤ b.date_rep) l) : ∀ cc cd,
    List.Pairwise (fun a b => a.date_rep ≤ b.date_rep ∧
      a.cum_cases ≤ b.cum_cases ∧ a.cum_deaths ≤ b.cum_deaths) (addCums cc cd l) := by
  induction l with
  | nil => intro cc cd; exact List.Pairwise.nil
  | cons r rs ih =>
    intro cc cd
    rcases List.pairwise_cons.1 hs with ⟨hhead, htail⟩
    refine List.pairwise_cons.2 ⟨?_, ih htail _ _⟩
    intro b hb
    rcases addCums_mem rs _ _ b hb with ⟨r0, hr0, hdate, _⟩
    rcases addCums_acc_le rs _ _ b hb with ⟨h1, h2⟩
    refine ⟨?_, ?_, ?_⟩
    · show r.date_rep ≤ b.date_rep
      rw [hdate]; exact hhead r0 hr0
    · exact le_trans (le_refl _) h1
    · exact le_trans (le_refl _) h2

/-! ## Lemmas about the stable sort -/

/-- Inserting a row permutes consing it. -/
lemma insertRow_perm (le : Row → Row → Bool) (r : Row) :
    ∀ s : List Row, (insertRow le r s).Perm (r :: s) := by
  intro s
  induction s with
  | nil => exact List.Perm.refl _
  | cons x xs ih =>
    unfold insertRow
    by_cases h : le r x = true
    · rw [if_pos h]
    · rw [if_neg h]
      exact (List.Perm.cons x ih).trans (List.Perm.swap r x xs)

/-- The stable sort permutes its input. -/
lemma sort_values_perm (le : Row → Row → Bool) :
    ∀ l : List Row, (sort_values le l).Perm l := by
  intro l
  induction l with
  | nil => exact List.Perm.refl _
  | cons a t ih =>
    exact (insertRow_perm le a _).trans (List.Perm.cons a ih)

/-- Membership is preserved by the stable sort. -/
lemma mem_sort_values {le : Row → Row → Bool} {l : List Row} {a : Row} :
    a ∈ sort_values le l ↔ a ∈ l :=
  (sort_values_perm le l).mem_iff

/-- The stable sort preserves the length. -/
lemma length_sort_values (le : Row → Row → Bool) (l : List Row) :
    (sort_values le l).length = l.length :=
  (sort_values_perm le l).length_eq

/-- Inserting into a sorted list keeps it sorted. -/
lemma sorted_insertRow (le : Row → Row → Bool)
    (htrans : ∀ a b c, le a b = true → le b c = true → le a c = true)
    (htotal : ∀ a b, (le a b || le b a) = true) (r : Row) :
    ∀ s : List Row, List.Pairwise (fun a b => le a b = true) s →
      List.Pairwise (fun a b => le a b = true) (insertRow le r s) := by
  intro s
  induction s with
  | nil => intro _; simp [insertRow]
  | cons x xs ih =>
    intro hs
    rcases List.pairwise_cons.1 hs with ⟨hhead, htail⟩
    unfold insertRow
    by_cases h : le r x = true
    · rw [if_pos h]
      refine List.pairwise_cons.2 ⟨?_, hs⟩
      intro y hy
      rcases List.mem_cons.1 hy with rfl | hy2
      · exact h
      · exact htrans r x y h (hhead y hy2)
    · rw [if_neg h]
      refine List.pairwise_cons.2 ⟨?_, ih htail⟩
      intro y hy
      have hy2 : y ∈ r :: xs := (insertRow_perm le r xs).mem_iff.1 hy
      rcases List.mem_cons.1 hy2 with rfl | hy3
      · rcases Bool.or_eq_true_iff.1 (htotal y x) with h1 | h1
        · exact absurd h1 h
        · exact h1
      · exact hhead y hy3

/-- The stable sort sorts, for any transitive total comparison. -/
lemma sorted_sort_values (le : Row → Row → Bool)
    (htrans : ∀ a b c, le a b = true → le b c = true → le a c = true)
    (htotal : ∀ a b, (le a b || le b a) = true) :
    ∀ l : List Row, List.Pairwise (fun a b => le a b = true) (sort_values le l) := by
  intro l
  induction l with
  | nil => exact List.Pairwise.nil
  | cons a t ih => exact sorted_insertRow le htrans htotal a _ ih

/-- A list is a sublist of any insertion into it. -/
lemma sublist_insertRow_self (le : Row → Row → Bool) (r : Row) :
    ∀ s : List Row, s.Sublist (insertRow le r s) := by
  intro s
  induction s with
  | nil => simp [insertRow]
  | cons x xs ih =>
    unfold insertRow
    by_cases h : le r x = true
    · rw [if_pos h]
      exact List.sublist_cons_self r (x :: xs)
    · rw [if_neg h]
      exact List.Sublist.cons₂ x ih

/-- Stability of the insertion: a sublist whose members all dominate the
inserted row stays behind it. -/
lemma sublist_insertRow_cons (le : Row → Row → Bool) (a : Row) :
    ∀ (s c2 : List Row), c2.Sublist s → (∀ x ∈ c2, le a x = true) →
      (a :: c2).Sublist (insertRow le a s) := by
  intro s
  induction s with
  | nil =>
    intro c2 hsub _
    rw [List.sublist_nil.1 hsub]
    simp [insertRow]
  | cons x xs ih =>
    intro c2 hsub hc2
    unfold insertRow
    by_cases h : le a x = true
    · rw [if_pos h]
      exact List.Sublist.cons₂ a hsub
    · rw [if_neg h]
      cases hsub with
      | cons _ hsub2 =>
        exact List.Sublist.cons x (ih c2 hsub2 hc2)
      | cons₂ _ hsub2 =>
        exact absurd (hc2 x (List.mem_cons_self x _)) h

/-- Stability of the stable sort: an already ordered sublist of the input is
a sublist of the sorted output. -/
lemma sublist_sort_values {le : Row → Row → Bool} {c l : List Row}
    (hpair : List.Pairwise (fun a b => le a b = true) c) (hsub : c.Sublist l) :
    c.Sublist (sort_values le l) := by
  induction l generalizing c with
  | nil =>
    rw [List.sublist_nil.1 hsub]
    exact List.nil_sublist _
  | cons a t ih =>
    cases hsub with
    | cons _ hsub2 =>
      exact (ih hpair hsub2).trans (sublist_insertRow_self le a _)
    | cons₂ _ hsub2 =>
      rename_i c2
      rcases List.pairwise_cons.1 hpair with ⟨hhead, htail⟩
      exact sublist_insertRow_cons le a _ c2 (ih htail hsub2) hhead

/-! ## Lemmas about `Val` arithmetic -/

/-- Filling NaN with 0 never leaves a NaN behind. -/
lemma fillna0_ne_nan (v : Val) : fillna0 v ≠ Val.nan := by
  cases v <;> simp [fillna0]

/-- Dividing a natural count by a zero count yields 0 after `fillna(0)` when
the numerator is 0, and infinity otherwise. -/
lemma fillna0_divVal_nat_zero (d : Nat) :
    fillna0 (divVal (d : ℚ) ((0 : Nat) : ℚ)) =
      (if d = 0 then Val.num 0 else Val.inf) := by
  by_cases hd : d = 0
  · subst hd; simp [divVal, fillna0]
  · have hpos : (0 : ℚ) < (d : ℚ) := by
      exact_mod_cast Nat.pos_of_ne_zero hd
    simp [divVal, hpos, fillna0, hd]

/-- The percent change from a zero cumulative value is NaN (when the current
value is also zero) or positive infinity (when it is positive). -/
lemma pctChange_zero (cur : Nat) :
    pctChange 0 cur = (if cur = 0 then Val.nan else Val.inf) := by
  by_cases hc : cur = 0
  · subst hc; simp [pctChange, divVal]
  · have hpos : (0 : ℚ) < (cur : ℚ) := by
      exact_mod_cast Nat.pos_of_ne_zero hc
    simp only [pctChange, Nat.cast_zero, sub_zero, divVal, if_pos rfl, hpos, if_pos, hc,
      if_false]

/-! ## Lemmas about `allDates` and `panelMinDate` -/

/-- The panel minimum bounds every row's date from below. -/
lemma panelMinDate_le_mem (l : List Row) (r : Row) (hr : r ∈ l) :
    panelMinDate l ≤ r.date_rep := by
  cases l with
  | nil => exact absurd hr (List.not_mem_nil r)
  | cons a t =>
    show (t.map (fun r => r.date_rep)).foldl min a.date_rep ≤ r.date_rep
    rcases List.mem_cons.1 hr with rfl | hrt
    · exact foldl_min_le_seed _ _
    · exact foldl_min_le_mem _ _ _ (List.mem_map_of_mem (fun r => r.date_rep) hrt)

/-- On a nonempty panel, the minimum date is attained by some row. -/
lemma panelMinDate_attained (l : List Row) (hne : l ≠ []) :
    ∃ r ∈ l, r.date_rep = panelMinDate l := by
  cases l with
  | nil => exact absurd rfl hne
  | cons a t =>
    show ∃ r ∈ a :: t, r.date_rep = (t.map (fun r => r.date_rep)).foldl min a.date_rep
    rcases foldl_min_attained (t.map (fun r => r.date_rep)) a.date_rep with h | h
    · exact ⟨a, List.mem_cons_self a t, h.symm⟩
    · rcases List.mem_map.1 h with ⟨r, hrt, hre⟩
      exact ⟨r, List.mem_cons_of_mem a hrt, hre⟩

/-- A value that is a lower bound of all dates and attained by some row is
the panel minimum date. -/
lemma panelMinDate_eq (l : List Row) (m : Nat)
    (hlb : ∀ r ∈ l, m ≤ r.date_rep) (hat : ∃ r ∈ l, r.date_rep = m) :
    panelMinDate l = m := by
  rcases hat with ⟨r, hr, hrm⟩
  have h1 : panelMinDate l ≤ m := hrm ▸ panelMinDate_le_mem l r hr
  rcases panelMinDate_attained l (by rintro rfl; exact absurd hr (List.not_mem_nil r)) with
    ⟨r2, hr2, hr2m⟩
  have h2 : m ≤ panelMinDate l := hr2m ▸ hlb r2 hr2
  omega

/-- The minimum date of the prepared feed belongs to the generated date
range. -/
lemma panelMinDate_mem_allDates (df : List Row) (hne : df ≠ []) :
    panelMinDate df ∈ allDates df := by
  cases df with
  | nil => exact absurd rfl hne
  | cons a t =>
    show (t.map (fun r => r.date_rep)).foldl min a.date_rep ∈ allDates (a :: t)
    have hdef : allDates (a :: t) =
        List.range' ((t.map (fun r => r.date_rep)).foldl min a.date_rep)
          ((t.map (fun r => r.date_rep)).foldl max a.date_rep + 1 -
            (t.map (fun r => r.date_rep)).foldl min a.date_rep) := rfl
    rw [hdef]
    have hlo : (t.map (fun r => r.date_rep)).foldl min a.date_rep ≤ a.date_rep :=
      foldl_min_le_seed _ _
    have hhi : a.date_rep ≤ (t.map (fun r => r.date_rep)).foldl max a.date_rep :=
      seed_le_foldl_max _ _
    refine List.mem_range'_1.2 ⟨le_refl _, ?_⟩
    omega

/-- Every date of the generated range is at least the feed's minimum date. -/
lemma allDates_lo_le (df : List Row) (d : Nat) (hd : d ∈ allDates df) :
    panelMinDate df ≤ d := by
  cases df with
  | nil => exact absurd hd (by simp [allDates])
  | cons a t =>
    have hdef : allDates (a :: t) =
        List.range' ((t.map (fun r => r.date_rep)).foldl min a.date_rep)
          ((t.map (fun r => r.date_rep)).foldl max a.date_rep + 1 -
            (t.map (fun r => r.date_rep)).foldl min a.date_rep) := rfl
    rw [hdef] at hd
    exact (List.mem_range'_1.1 hd).1

/-! ## Lemmas about `fillCountry` -/

/-- Normal form of a successful per-country synthesis: the filtered selection
is nonempty and the frame is the cumulated sort of the selection plus the
synthesised missing-date rows. -/
lemma fillCountry_eq (all_dates : List Nat) (df : List Row) (c : String)
    (f : List Row) (h : fillCountry all_dates df c = some f) :
    ∃ r0 rest, df.filter (fun r => r.alpha_3_code == c) = r0 :: rest ∧
      f = addCums 0 0 (sort_values dateLe ((r0 :: rest) ++
        ((all_dates.filter (fun d => !((r0 :: rest).any (fun r => r.date_rep == d)))).map
          (fun d => { r0 with date_rep := d, cases := 0, deaths := 0 })))) := by
  unfold fillCountry at h
  cases hfil : df.filter (fun r => r.alpha_3_code == c) with
  | nil => rw [hfil] at h; exact absurd h (by simp)
  | cons r0 rest =>
    rw [hfil] at h
    exact ⟨r0, rest, rfl, (Option.some_injective _ h).symm⟩

/-- Every row of a country frame carries that country's alpha-3 code, and its
display name and code pair occurs in the prepared feed. -/
lemma fillCountry_mem (all_dates : List Nat) (df : List Row) (c : String)
    (f : List Row) (h : fillCountry all_dates df c = some f) :
    ∀ r ∈ f, r.alpha_3_code = c ∧
      ∃ rp ∈ df, r.country = rp.country ∧ rp.alpha_3_code = c := by
  rcases fillCountry_eq all_dates df c f h with ⟨r0, rest, hfil, hf⟩
  have hsel : ∀ r ∈ r0 :: rest, r ∈ df ∧ r.alpha_3_code = c := by
    intro r hr
    rw [← hfil] at hr
    rcases List.mem_filter.1 hr with ⟨h1, h2⟩
    exact ⟨h1, by simpa using h2⟩
  intro r hr
  rw [hf] at hr
  rcases addCums_mem _ _ _ r hr with ⟨r1, hr1, hdate, hcode, hcountry, hpop⟩
  have hr1m : r1 ∈ (r0 :: rest) ++
      ((all_dates.filter (fun d => !((r0 :: rest).any (fun r => r.date_rep == d)))).map
        (fun d => { r0 with date_rep := d, cases := 0, deaths := 0 })) :=
    mem_sort_values.1 hr1
  rcases List.mem_append.1 hr1m with hm | hm
  · rcases hsel r1 hm with ⟨hdf, hc⟩
    exact ⟨by rw [hcode, hc], r1, hdf, hcountry, hc⟩
  · rcases List.mem_map.1 hm with ⟨d, _, hd⟩
    have hcode1 : r1.alpha_3_code = r0.alpha_3_code := by rw [← hd]
    have hcountry1 : r1.country = r0.country := by rw [← hd]
    rcases hsel r0 (List.mem_cons_self r0 rest) with ⟨hdf0, hc0⟩
    refine ⟨by rw [hcode, hcode1, hc0], r0, hdf0, ?_, hc0⟩
    rw [hcountry, hcountry1]

/-- A country frame is nonempty. -/
lemma fillCountry_ne_nil (all_dates : List Nat) (df : List Row) (c : String)
    (f : List Row) (h : fillCountry all_dates df c = some f) : f ≠ [] := by
  rcases fillCountry_eq all_dates df c f h with ⟨r0, rest, _, hf⟩
  have hlen : f.length =
      ((r0 :: rest) ++
        ((all_dates.filter (fun d => !((r0 :: rest).any (fun r => r.date_rep == d)))).map
          (fun d => { r0 with date_rep := d, cases := 0, deaths := 0 }))).length := by
    rw [hf]
    have h1 : ∀ (cc cd : Nat) (l : List Row), (addCums cc cd l).length = l.length := by
      intro cc cd l
      induction l generalizing cc cd with
      | nil => rfl
      | cons r rs ih => simp [addCums, ih]
    rw [h1, length_sort_values]
  intro hnil
  rw [hnil] at hlen
  simp at hlen

/-- Within a country frame, dates are sorted and cumulative counters are
monotone along the row order. -/
lemma fillCountry_pairwise (all_dates : List Nat) (df : List Row) (c : String)
    (f : List Row) (h : fillCountry all_dates df c = some f) :
    List.Pairwise (fun a b => a.date_rep ≤ b.date_rep ∧
      a.cum_cases ≤ b.cum_cases ∧ a.cum_deaths ≤ b.cum_deaths) f := by
  rcases fillCountry_eq all_dates df c f h with ⟨r0, rest, _, hf⟩
  rw [hf]
  apply addCums_pairwise
  have hsorted := sorted_sort_values dateLe dateLe_trans dateLe_total
    ((r0 :: rest) ++
      ((all_dates.filter (fun d => !((r0 :: rest).any (fun r => r.date_rep == d)))).map
        (fun d => { r0 with date_rep := d, cases := 0, deaths := 0 })))
  exact hsorted.imp (fun hab => by simpa [dateLe] using hab)

/-- Every date of the global range is realised by some row of every country
frame. -/
lemma fillCountry_span (all_dates : List Nat) (df : List Row) (c : String)
    (f : List Row) (h : fillCountry all_dates df c = some f) :
    ∀ d ∈ all_dates, ∃ r ∈ f, r.date_rep = d := by
  rcases fillCountry_eq all_dates df c f h with ⟨r0, rest, hfil, hf⟩
  intro d hd
  set base := (r0 :: rest) ++
    ((all_dates.filter (fun x => !((r0 :: rest).any (fun r => r.date_rep == x)))).map
      (fun x => { r0 with date_rep := x, cases := 0, deaths := 0 })) with hbase
  have hmem : ∃ r ∈ base, r.date_rep = d := by
    by_cases hany : (r0 :: rest).any (fun r => r.date_rep == d)
    · rcases List.any_eq_true.1 hany with ⟨r, hr, hrd⟩
      exact ⟨r, List.mem_append_left _ hr, by simpa using hrd⟩
    · refine ⟨{ r0 with date_rep := d, cases := 0, deaths := 0 }, ?_, rfl⟩
      refine List.mem_append_right _ (List.mem_map.2 ⟨d, ?_, rfl⟩)
      exact List.mem_filter.2 ⟨hd, by simpa using hany⟩
  rcases hmem with ⟨r, hr, hrd⟩
  have hsort : r ∈ sort_values dateLe base := mem_sort_values.2 hr
  have hdates : d ∈ (addCums 0 0 (sort_values dateLe base)).map (fun r => r.date_rep) := by
    rw [addCums_map_date]
    exact List.mem_map.2 ⟨r, hsort, hrd⟩
  rcases List.mem_map.1 hdates with ⟨r2, hr2, hr2d⟩
  exact ⟨r2, by rw [hf]; exact hr2, hr2d⟩

/-- Rows of a country frame never carry a date below a common lower bound of
the feed and the date range. -/
lemma fillCountry_date_lb (all_dates : List Nat) (df : List Row) (c : String)
    (f : List Row) (h : fillCountry all_dates df c = some f) (lo : Nat)
    (hdf : ∀ r ∈ df, lo ≤ r.date_rep) (hall : ∀ d ∈ all_dates, lo ≤ d) :
    ∀ r ∈ f, lo ≤ r.date_rep := by
  rcases fillCountry_eq all_dates df c f h with ⟨r0, rest, hfil, hf⟩
  intro r hr
  rw [hf] at hr
  rcases addCums_mem _ _ _ r hr with ⟨r1, hr1, hdate, _⟩
  have hr1m := mem_sort_values.1 hr1
  rcases List.mem_append.1 hr1m with hm | hm
  · have : r1 ∈ df := by
      have : r1 ∈ df.filter (fun r => r.alpha_3_code == c) := hfil ▸ hm
      exact (List.mem_filter.1 this).1
    rw [hdate]; exact hdf r1 this
  · rcases List.mem_map.1 hm with ⟨d, hdmem, hd⟩
    have : r1.date_rep = d := by rw [← hd]
    rw [hdate, this]
    exact hall d (List.mem_filter.1 hdmem).1

/-! ## Lemmas about `uniqueKeys` and `densifyLoop` -/

/-- The first-appearance deduplication never repeats a key. -/
lemma uniqueKeys_nodup (l : List String) : (uniqueKeys l).Nodup := by
  have haux : ∀ (l : List String) (acc : List String), acc.Nodup →
      (l.foldl (fun acc c => if c ∈ acc then acc else acc ++ [c]) acc).Nodup := by
    intro l
    induction l with
    | nil => intro acc h; exact h
    | cons c cs ih =>
      intro acc h
      by_cases hc : c ∈ acc
      · simpa [hc] using ih acc h
      · have : (acc ++ [c]).Nodup := by
          simp [List.nodup_append, h, hc]
        simpa [hc] using ih (acc ++ [c]) this
  exact haux l [] List.nodup_nil

/-- Deduplication preserves the set of keys. -/
lemma uniqueKeys_mem (l : List String) (x : String) : x ∈ uniqueKeys l ↔ x ∈ l := by
  have haux : ∀ (l : List String) (acc : List String),
      (x ∈ l.foldl (fun acc c => if c ∈ acc then acc else acc ++ [c]) acc ↔
        x ∈ acc ∨ x ∈ l) := by
    intro l
    induction l with
    | nil => intro acc; simp
    | cons c cs ih =>
      intro acc
      by_cases hc : c ∈ acc
      · simp only [List.foldl_cons, if_pos hc, ih acc, List.mem_cons]
        constructor
        · rintro (h | h)
          · exact Or.inl h
          · exact Or.inr (Or.inr h)
        · rintro (h | rfl | h)
          · exact Or.inl h
          · exact Or.inl hc
          · exact Or.inr h
      · simp only [List.foldl_cons, if_neg hc, ih (acc ++ [c]), List.mem_append,
          List.mem_singleton, List.mem_cons]
        tauto
  simpa [uniqueKeys] using haux l []

/-- Every collected frame comes from a successful synthesis of some listed
code. -/
lemma densifyLoop_frames (synth : String → Option (List Row)) (cs : List String) :
    ∀ f ∈ (densifyLoop synth cs).1, ∃ c ∈ cs, synth c = some f := by
  induction cs with
  | nil => intro f h; exact absurd h (List.not_mem_nil f)
  | cons c cs ih =>
    intro f h
    unfold densifyLoop at h
    cases hc : synth c with
    | some fc =>
      rw [hc] at h
      rcases List.mem_cons.1 h with rfl | h
      · exact ⟨c, List.mem_cons_self c cs, hc⟩
      · rcases ih f h with ⟨c2, hc2, he⟩
        exact ⟨c2, List.mem_cons_of_mem c hc2, he⟩
    | none =>
      rw [hc] at h
      rcases ih f h with ⟨c2, hc2, he⟩
      exact ⟨c2, List.mem_cons_of_mem c hc2, he⟩

/-- A successful synthesis of a listed code contributes its frame. -/
lemma densifyLoop_mem (synth : String → Option (List Row)) (cs : List String) :
    ∀ c ∈ cs, ∀ f, synth c = some f → f ∈ (densifyLoop synth cs).1 := by
  induction cs with
  | nil => intro c h; exact absurd h (List.not_mem_nil c)
  | cons c0 cs ih =>
    intro c hc f hf
    unfold densifyLoop
    rcases List.mem_cons.1 hc with rfl | hc
    · rw [hf]; exact List.mem_cons_self f _
    · cases hc0 : synth c0 with
      | some f0 => exact List.mem_cons_of_mem f0 (ih c hc f hf)
      | none => exact ih c hc f hf

/-- A code is logged as skipped exactly when it is listed and its synthesis
fails. -/
lemma densifyLoop_skipped (synth : String → Option (List Row)) (cs : List String)
    (c : String) : c ∈ (densifyLoop synth cs).2 ↔ c ∈ cs ∧ synth c = none := by
  induction cs with
  | nil => simp [densifyLoop]
  | cons c0 cs ih =>
    unfold densifyLoop
    cases hc0 : synth c0 with
    | some f0 =>
      simp only [ih, List.mem_cons]
      constructor
      · rintro ⟨h1, h2⟩; exact ⟨Or.inr h1, h2⟩
      · rintro ⟨h1 | h1, h2⟩
        · subst h1; rw [hc0] at h2; exact absurd h2 (by simp)
        · exact ⟨h1, h2⟩
    | none =>
      simp only [List.mem_cons, ih]
      constructor
      · rintro (rfl | ⟨h1, h2⟩)
        · exact ⟨Or.inl rfl, hc0⟩
        · exact ⟨Or.inr h1, h2⟩
      · rintro ⟨h1 | h1, h2⟩
        · exact Or.inl h1
        · exact Or.inr ⟨h1, h2⟩

/-! ## Lemmas about the indicator pass -/

/-- Setting the indicator cells leaves all other fields unchanged. -/
lemma setIndicators_core (m : Nat) (prev : Option Row) (r : Row) :
    coreOf (setIndicators m prev r) = coreOf r := rfl

/-- The indicator pass preserves the non-indicator fields positionally. -/
lemma addGrowth_map_core (l : List Row) : ∀ prev m,
    (addGrowth m prev l).map coreOf = l.map coreOf := by
  induction l with
  | nil => intro prev m; rfl
  | cons r rs ih =>
    intro prev m
    simp only [addGrowth, List.map_cons, setIndicators_core, ih]

/-- Membership transport through the indicator pass: every produced row
agrees with a source row on the non-indicator fields. -/
lemma addGrowth_mem_core (l : List Row) : ∀ prev m r2, r2 ∈ addGrowth m prev l →
    ∃ r ∈ l, coreOf r2 = coreOf r := by
  intro prev m r2 h
  have : coreOf r2 ∈ (addGrowth m prev l).map coreOf := List.mem_map_of_mem coreOf h
  rw [addGrowth_map_core] at this
  rcases List.mem_map.1 this with ⟨r, hr, he⟩
  exact ⟨r, hr, he.symm⟩

/-- Every row after the indicator pass carries the mortality rate computed
from its own cumulative counters by `fillna(0)` of the division. -/
lemma addGrowth_mortality (l : List Row) : ∀ prev m r2, r2 ∈ addGrowth m prev l →
    r2.mortality_rate = fillna0 (divVal (r2.cum_deaths : ℚ) (r2.cum_cases : ℚ)) := by
  induction l with
  | nil => intro prev m r2 h; exact absurd h (List.not_mem_nil r2)
  | cons r rs ih =>
    intro prev m r2 h
    rcases List.mem_cons.1 h with rfl | h
    · rfl
    · exact ih (some r) m r2 h

/-- A row of the indicator pass dated at the panel minimum has null growth
rates. -/
lemma setIndicators_min_null (m : Nat) (prev : Option Row) (r : Row)
    (hd : r.date_rep = m) : growthNull (setIndicators m prev r) := by
  constructor <;> simp [setIndicators, hd, growthNull]

/-- Projection equalities for the indicator pass. -/
lemma setIndicators_fields (m : Nat) (prev : Option Row) (r : Row) :
    (setIndicators m prev r).alpha_3_code = r.alpha_3_code ∧
    (setIndicators m prev r).date_rep = r.date_rep ∧
    (setIndicators m prev r).cum_cases = r.cum_cases ∧
    (setIndicators m prev r).cum_deaths = r.cum_deaths := ⟨rfl, rfl, rfl, rfl⟩

/-- Growth cells produced for a row whose predecessor has a zero cumulative
counter are null. -/
lemma setIndicators_prev_zero (m : Nat) (p r : Row) :
    (p.cum_cases = 0 → (setIndicators m (some p) r).infections_growth_rate = Val.nan) ∧
    (p.cum_deaths = 0 → (setIndicators m (some p) r).deaths_growth_rate = Val.nan) := by
  constructor
  · intro h0
    show (if r.date_rep = m ∨ pctChange p.cum_cases r.cum_cases = Val.inf then Val.nan
      else pctChange p.cum_cases r.cum_cases) = Val.nan
    rw [h0, pctChange_zero]
    by_cases hc : r.cum_cases = 0
    · simp only [if_pos hc]
      by_cases hd : r.date_rep = m <;> simp [hd]
    · simp [hc]
  · intro h0
    show (if r.date_rep = m ∨ pctChange p.cum_deaths r.cum_deaths = Val.inf then Val.nan
      else pctChange p.cum_deaths r.cum_deaths) = Val.nan
    rw [h0, pctChange_zero]
    by_cases hc : r.cum_deaths = 0
    · simp only [if_pos hc]
      by_cases hd : r.date_rep = m <;> simp [hd]
    · simp [hc]

/-- Growth cells produced with no predecessor are null. -/
lemma setIndicators_no_prev (m : Nat) (r : Row) :
    growthNull (setIndicators m none r) := by
  constructor
  · show (if r.date_rep = m ∨ Val.nan = Val.inf then Val.nan else Val.nan) = Val.nan
    by_cases hd : r.date_rep = m <;> simp [hd]
  · show (if r.date_rep = m ∨ Val.nan = Val.inf then Val.nan else Val.nan) = Val.nan
    by_cases hd : r.date_rep = m <;> simp [hd]

/-- Main inductive fact of the indicator pass: if the sorted panel changes
entity only at minimum-date rows and is cumulative-monotone within an entity,
the produced rows satisfy the growth-rate adjacency property and the
row-wise invariant. -/
lemma addGrowth_c3 (m : Nat) : ∀ (l : List Row) (prev : Option Row),
    List.Chain' (c3Pre m) l →
    (∀ a, prev = some a → ∀ b ∈ l.head?, c3Pre m a b) →
    List.Chain' c3Step (addGrowth m prev l) ∧
      ∀ r ∈ addGrowth m prev l, rowInv m r := by
  intro l
  induction l with
  | nil =>
    intro prev _ _
    exact ⟨List.chain'_nil, fun r h => absurd h (List.not_mem_nil r)⟩
  | cons r rs ih =>
    intro prev hchain hprev
    have htail : List.Chain' (c3Pre m) rs := hchain.tail
    have hstep : ∀ b ∈ rs.head?, c3Pre m r b := by
      intro b hb
      cases rs with
      | nil => exact absurd hb (by simp)
      | cons b2 t =>
        have hbe : b2 = b := by simpa using hb
        subst hbe
        exact (List.chain'_cons.1 hchain).1
    rcases ih (some r) htail (fun a ha b hb => by
      cases ha; exact hstep b hb) with ⟨ihchain, ihinv⟩
    have hrowinv : rowInv m (setIndicators m prev r) := by
      cases prev with
      | none =>
        rcases setIndicators_no_prev m r with ⟨h1, h2⟩
        exact ⟨fun _ => h1, fun _ => h2, fun _ => ⟨h1, h2⟩⟩
      | some a =>
        have hpa : c3Pre m a r := hprev a rfl r (by simp)
        refine ⟨?_, ?_, fun hd => setIndicators_min_null m (some a) r hd⟩
        · intro h0
          have h0r : r.cum_cases = 0 := h0
          by_cases hcode : a.alpha_3_code = r.alpha_3_code
          · have hle := (hpa.2 hcode).1
            have ha0 : a.cum_cases = 0 := by omega
            exact (setIndicators_prev_zero m a r).1 ha0
          · have hd := hpa.1 hcode
            exact (setIndicators_min_null m (some a) r hd).1
        · intro h0
          have h0r : r.cum_deaths = 0 := h0
          by_cases hcode : a.alpha_3_code = r.alpha_3_code
          · have hle := (hpa.2 hcode).2
            have ha0 : a.cum_deaths = 0 := by omega
            exact (setIndicators_prev_zero m a r).2 ha0
          · have hd := hpa.1 hcode
            exact (setIndicators_min_null m (some a) r hd).2
    refine ⟨?_, ?_⟩
    · show List.Chain' c3Step (setIndicators m prev r :: addGrowth m (some r) rs)
      cases rs with
      | nil => simp [addGrowth]
      | cons b t =>
        refine List.chain'_cons.2 ⟨?_, ihchain⟩
        have hpb : c3Pre m r b := hstep b (by simp)
        constructor
        · intro hne
          have hne2 : r.alpha_3_code ≠ b.alpha_3_code := by
            simpa [setIndicators] using hne
          exact setIndicators_min_null m (some r) b (hpb.1 hne2)
        · intro heq
          have heq2 : r.alpha_3_code = b.alpha_3_code := by
            simpa [setIndicators] using heq
          constructor
          · intro h0
            have h02 : r.cum_cases = 0 := h0
            exact (setIndicators_prev_zero m r b).1 h02
          · intro h0
            have h02 : r.cum_deaths = 0 := h0
            exact (setIndicators_prev_zero m r b).2 h02
    · intro r2 h2
      rcases List.mem_cons.1 h2 with rfl | h2
      · exact hrowinv
      · exact ihinv r2 h2

/-! ## Lemmas about the region merge, the overrides and the renaming -/

/-- A left row always produces at least one merged row. -/
lemma mergeRow_ne_nil (regs : List RegionRow) (r : Row) : mergeRow regs r ≠ [] := by
  unfold mergeRow
  cases regs.filter (fun g => g.iso_alpha3_code == r.alpha_3_code) with
  | nil => simp
  | cons g gs => simp

/-- Every merged copy of a row agrees with it outside the region fields. -/
lemma mergeRow_except (regs : List RegionRow) (r : Row) :
    ∀ x ∈ mergeRow regs r, exceptRegions x = exceptRegions r := by
  intro x hx
  unfold mergeRow at hx
  cases hfil : regs.filter (fun g => g.iso_alpha3_code == r.alpha_3_code) with
  | nil =>
    rw [hfil] at hx
    have : x = { r with region_1 := none, region_2 := none, continent := none } := by
      simpa using hx
    rw [this]; rfl
  | cons g gs =>
    rw [hfil] at hx
    rcases List.mem_map.1 hx with ⟨g2, _, hg2⟩
    rw [← hg2]; rfl

/-- Field equalities extracted from agreement outside the region fields. -/
lemma exceptRegions_fields (x r : Row) (h : exceptRegions x = exceptRegions r) :
    x.alpha_3_code = r.alpha_3_code ∧ x.date_rep = r.date_rep ∧
    x.cum_cases = r.cum_cases ∧ x.cum_deaths = r.cum_deaths ∧
    x.country = r.country ∧ x.mortality_rate = r.mortality_rate ∧
    x.infections_growth_rate = r.infections_growth_rate ∧
    x.deaths_growth_rate = r.deaths_growth_rate ∧
    x.population_2018 = r.population_2018 := by
  refine ⟨?_, ?_, ?_, ?_, ?_, ?_, ?_, ?_, ?_⟩
  · show (exceptRegions x).alpha_3_code = (exceptRegions r).alpha_3_code
    exact congrArg _ h
  · show (exceptRegions x).date_rep = (exceptRegions r).date_rep
    exact congrArg _ h
  · show (exceptRegions x).cum_cases = (exceptRegions r).cum_cases
    exact congrArg _ h
  · show (exceptRegions x).cum_deaths = (exceptRegions r).cum_deaths
    exact congrArg _ h
  · show (exceptRegions x).country = (exceptRegions r).country
    exact congrArg _ h
  · show (exceptRegions x).mortality_rate = (exceptRegions r).mortality_rate
    exact congrArg _ h
  · show (exceptRegions x).infections_growth_rate = (exceptRegions r).infections_growth_rate
    exact congrArg _ h
  · show (exceptRegions x).deaths_growth_rate = (exceptRegions r).deaths_growth_rate
    exact congrArg _ h
  · show (exceptRegions x).population_2018 = (exceptRegions r).population_2018
    exact congrArg _ h

/-- A row with no matching region entry keeps null region labels. -/
lemma mergeRow_unmatched (regs : List RegionRow) (r : Row)
    (hno : regs.filter (fun g => g.iso_alpha3_code == r.alpha_3_code) = []) :
    mergeRow regs r = [{ r with region_1 := none, region_2 := none, continent := none }] := by
  unfold mergeRow
  rw [hno]

/-- Forward membership transport through the region merge. -/
lemma mergeRegions_mem_fwd (regs : List RegionRow) (l : List Row) :
    ∀ x ∈ mergeRegions regs l, ∃ r ∈ l, exceptRegions x = exceptRegions r := by
  intro x hx
  rcases List.mem_flatMap.1 hx with ⟨r, hr, hxr⟩
  exact ⟨r, hr, mergeRow_except regs r x hxr⟩

/-- Backward membership transport through the region merge. -/
lemma mergeRegions_mem_bwd (regs : List RegionRow) (l : List Row) :
    ∀ r ∈ l, ∃ x ∈ mergeRegions regs l, exceptRegions x = exceptRegions r := by
  intro r hr
  cases hrow : mergeRow regs r with
  | nil => exact absurd hrow (mergeRow_ne_nil regs r)
  | cons x xs =>
    refine ⟨x, List.mem_flatMap.2 ⟨r, hr, by rw [hrow]; exact List.mem_cons_self x xs⟩, ?_⟩
    exact mergeRow_except regs r x (by rw [hrow]; exact List.mem_cons_self x xs)

/-- Rows of the merged panel whose code matches no region entry carry null
region labels. -/
lemma mergeRegions_unmatched (regs : List RegionRow) (l : List Row) :
    ∀ x ∈ mergeRegions regs l, (∀ g ∈ regs, ¬(g.iso_alpha3_code = x.alpha_3_code)) →
      x.region_1 = none ∧ x.region_2 = none ∧ x.continent = none := by
  intro x hx hnom
  rcases List.mem_flatMap.1 hx with ⟨r, _, hxr⟩
  have hcode : x.alpha_3_code = r.alpha_3_code :=
    (exceptRegions_fields x r (mergeRow_except regs r x hxr)).1
  unfold mergeRow at hxr
  cases hfil : regs.filter (fun g => g.iso_alpha3_code == r.alpha_3_code) with
  | nil =>
    rw [hfil] at hxr
    have : x = { r with region_1 := none, region_2 := none, continent := none } := by
      simpa using hxr
    rw [this]
    exact ⟨rfl, rfl, rfl⟩
  | cons g gs =>
    have hg : g ∈ regs.filter (fun g => g.iso_alpha3_code == r.alpha_3_code) := by
      rw [hfil]; exact List.mem_cons_self g gs
    rcases List.mem_filter.1 hg with ⟨hgm, hgc⟩
    have : g.iso_alpha3_code = r.alpha_3_code := by simpa using hgc
    exact absurd (this.trans hcode.symm) (hnom g hgm)

/-- The growth-rate adjacency property transfers along rows that agree on
codes, cumulative counters and growth cells. -/
lemma c3Step_transfer (a b a2 b2 : Row)
    (hca : a2.alpha_3_code = a.alpha_3_code) (hcb : b2.alpha_3_code = b.alpha_3_code)
    (hcc : a2.cum_cases = a.cum_cases) (hcd : a2.cum_deaths = a.cum_deaths)
    (hgi : b2.infections_growth_rate = b.infections_growth_rate)
    (hgd : b2.deaths_growth_rate = b.deaths_growth_rate)
    (h : c3Step a b) : c3Step a2 b2 := by
  constructor
  · intro hne
    have : a.alpha_3_code ≠ b.alpha_3_code := by rw [← hca, ← hcb]; exact hne
    rcases h.1 this with ⟨h1, h2⟩
    exact ⟨by rw [hgi]; exact h1, by rw [hgd]; exact h2⟩
  · intro heq
    have : a.alpha_3_code = b.alpha_3_code := by rw [← hca, ← hcb]; exact heq
    rcases h.2 this with ⟨h1, h2⟩
    constructor
    · intro h0; rw [hgi]; exact h1 (hcc ▸ h0)
    · intro h0; rw [hgd]; exact h2 (hcd ▸ h0)

/-- The row-wise invariant transfers along rows that agree on date,
cumulative counters and growth cells. -/
lemma rowInv_transfer (m : Nat) (r r2 : Row)
    (hd : r2.date_rep = r.date_rep)
    (hcc : r2.cum_cases = r.cum_cases) (hcd : r2.cum_deaths = r.cum_deaths)
    (hgi : r2.infections_growth_rate = r.infections_growth_rate)
    (hgd : r2.deaths_growth_rate = r.deaths_growth_rate)
    (h : rowInv m r) : rowInv m r2 := by
  refine ⟨?_, ?_, ?_⟩
  · intro h0; rw [hgi]; exact h.1 (hcc ▸ h0)
  · intro h0; rw [hgd]; exact h.2.1 (hcd ▸ h0)
  · intro h0
    rcases h.2.2 (hd ▸ h0) with ⟨h1, h2⟩
    exact ⟨by rw [hgi]; exact h1, by rw [hgd]; exact h2⟩

/-- The head of a merged panel is a copy of the first left row. -/
lemma mergeRegions_head (regs : List RegionRow) (r : Row) (t : List Row) :
    ∀ y ∈ (mergeRegions regs (r :: t)).head?, exceptRegions y = exceptRegions r := by
  intro y hy
  have hdef : mergeRegions regs (r :: t) = mergeRow regs r ++ mergeRegions regs t := by
    unfold mergeRegions
    simp [List.flatMap_cons]
  rw [hdef] at hy
  cases hrow : mergeRow regs r with
  | nil => exact absurd hrow (mergeRow_ne_nil regs r)
  | cons x xs =>
    rw [hrow] at hy
    have hyx : x = y := by simpa using hy
    subst hyx
    exact mergeRow_except regs r x (by rw [hrow]; exact List.mem_cons_self x xs)

/-- The region merge preserves the growth-rate adjacency property and the
row-wise invariant. -/
lemma mergeRegions_chain (m : Nat) (regs : List RegionRow) : ∀ l : List Row,
    List.Chain' c3Step l → (∀ r ∈ l, rowInv m r) →
    List.Chain' c3Step (mergeRegions regs l) ∧
      ∀ x ∈ mergeRegions regs l, rowInv m x := by
  intro l
  induction l with
  | nil =>
    intro _ _
    constructor
    · exact List.chain'_nil
    · intro x hx
      exact absurd hx (by simp [mergeRegions])
  | cons r t ih =>
    intro hchain hinv
    have hdef : mergeRegions regs (r :: t) = mergeRow regs r ++ mergeRegions regs t := by
      unfold mergeRegions
      simp [List.flatMap_cons]
    rcases ih hchain.tail (fun x hx => hinv x (List.mem_cons_of_mem r hx)) with ⟨ihc, ihinv⟩
    have hinvr : rowInv m r := hinv r (List.mem_cons_self r t)
    have hinv2 : ∀ x ∈ mergeRegions regs (r :: t), rowInv m x := by
      intro x hx
      rw [hdef] at hx
      rcases List.mem_append.1 hx with hx | hx
      · rcases exceptRegions_fields x r (mergeRow_except regs r x hx) with
          ⟨_, hd, hcc, hcd, _, _, hgi, hgd, _⟩
        exact rowInv_transfer m r x hd hcc hcd hgi hgd hinvr
      · exact ihinv x hx
    refine ⟨?_, hinv2⟩
    rw [hdef]
    refine List.Chain'.append ?_ ihc ?_
    · -- all pairs inside one chunk are copies of the same row
      refine List.Pairwise.chain' (List.pairwise_of_forall_mem_list ?_)
      intro x hx y hy
      rcases exceptRegions_fields x r (mergeRow_except regs r x hx) with
        ⟨hxc, _, hxcc, hxcd, _, _, _, _, _⟩
      rcases exceptRegions_fields y r (mergeRow_except regs r y hy) with
        ⟨hyc, _, _, _, _, _, hygi, hygd, _⟩
      constructor
      · intro hne
        exact absurd (hxc.trans hyc.symm) hne
      · intro _
        constructor
        · intro h0
          rw [hygi]
          exact hinvr.1 (hxcc ▸ h0)
        · intro h0
          rw [hygd]
          exact hinvr.2.1 (hxcd ▸ h0)
    · -- bridge from the last copy of `r` to the first copy of the next row
      intro x hx y hy
      cases t with
      | nil =>
        exact absurd hy (by simp [mergeRegions])
      | cons r2 t2 =>
        have hxm : x ∈ mergeRow regs r := by
          rcases List.mem_getLast?_eq_getLast hx with ⟨hne, hxe⟩
          rw [hxe]
          exact List.getLast_mem hne
        have hye : exceptRegions y = exceptRegions r2 := mergeRegions_head regs r2 t2 y hy
        rcases exceptRegions_fields x r (mergeRow_except regs r x hxm) with
          ⟨hxc, _, hxcc, hxcd, _, _, _, _, _⟩
        rcases exceptRegions_fields y r2 hye with
          ⟨hyc, _, _, _, _, _, hygi, hygd, _⟩
        have hstep : c3Step r r2 := (List.chain'_cons.1 hchain).1
        exact c3Step_transfer r r2 x y hxc hyc hxcc hxcd hygi hygd hstep

/-- Unfolding of the three continent overrides into a single row map. -/
lemma applyOverrides_eq (l : List Row) : applyOverrides l = l.map overrideOne := by
  unfold applyOverrides country_exceptions
  simp only [List.foldl_cons, List.foldl_nil, List.map_map]
  apply List.map_congr_left
  intro r _
  simp only [Function.comp]
  by_cases hk : r.country = "Kosovo"
  · simp [overrideOne, hk]
  · by_cases ht : r.country = "Taiwan"
    · simp [overrideOne, hk, ht]
    · by_cases hb : r.country = "Bonaire"
      · simp [overrideOne, hk, ht, hb]
      · simp [overrideOne, hk, ht, hb]

/-- The override map never changes a field other than the continent. -/
lemma overrideOne_fields (r : Row) :
    (overrideOne r).alpha_3_code = r.alpha_3_code ∧
    (overrideOne r).date_rep = r.date_rep ∧
    (overrideOne r).cum_cases = r.cum_cases ∧
    (overrideOne r).cum_deaths = r.cum_deaths ∧
    (overrideOne r).country = r.country ∧
    (overrideOne r).mortality_rate = r.mortality_rate ∧
    (overrideOne r).infections_growth_rate = r.infections_growth_rate ∧
    (overrideOne r).deaths_growth_rate = r.deaths_growth_rate ∧
    (overrideOne r).region_1 = r.region_1 ∧
    (overrideOne r).region_2 = r.region_2 := by
  unfold overrideOne
  split_ifs <;> exact ⟨rfl, rfl, rfl, rfl, rfl, rfl, rfl, rfl, rfl, rfl⟩

/-- A row whose display name is not an override key is left unchanged. -/
lemma overrideOne_not_key (r : Row) (h1 : r.country ≠ "Kosovo")
    (h2 : r.country ≠ "Taiwan") (h3 : r.country ≠ "Bonaire") :
    overrideOne r = r := by
  simp [overrideOne, h1, h2, h3]

/-- The renaming pass only rewrites the display name. -/
lemma replaceNames_eq (l : List Row) :
    replaceNames l = l.map (fun r => { r with country := replaceUnderscores r.country }) := rfl

/-- Underscore replacement of the override keys is the identity. -/
lemma replaceUnderscores_keys :
    replaceUnderscores "Kosovo" = "Kosovo" ∧ replaceUnderscores "Taiwan" = "Taiwan" ∧
      replaceUnderscores "Bonaire" = "Bonaire" := by
  refine ⟨?_, ?_, ?_⟩ <;> rfl

/-- A character list without spaces is reached by underscore replacement
only from itself. -/
lemma map_underscore_preimage (l : List Char) : ∀ t : List Char,
    (∀ c ∈ t, c ≠ ' ') → l.map underscoreToSpace = t → l = t := by
  induction l with
  | nil =>
    intro t _ h
    simpa using h
  | cons c cs ih =>
    intro t ht h
    cases t with
    | nil => simp at h
    | cons d ds =>
      simp only [List.map_cons, List.cons.injEq] at h
      rcases h with ⟨hcd, hrest⟩
      have hdne : d ≠ ' ' := ht d (by simp)
      have hc : c = d := by
        by_cases hcu : c = '_'
        · rw [hcu] at hcd
          simp only [underscoreToSpace, if_pos rfl] at hcd
          exact absurd hcd.symm hdne
        · simpa [underscoreToSpace, hcu] using hcd
      have hds : cs = ds := ih ds (fun x hx => ht x (by simp [hx])) hrest
      rw [hc, hds]

/-- A string without spaces is reached by underscore replacement only from
itself. -/
lemma replaceUnderscores_preimage (s t : String) (ht : ∀ c ∈ t.data, c ≠ ' ')
    (h : replaceUnderscores s = t) : s = t := by
  have hdata : s.data.map underscoreToSpace = t.data := by
    have h2 : (replaceUnderscores s).data = t.data := by rw [h]
    simpa [replaceUnderscores] using h2
  have hlist : s.data = t.data := map_underscore_preimage s.data t.data ht hdata
  cases s with
  | mk sd =>
    cases t with
    | mk td =>
      simp only [String.data] at hlist
      rw [hlist]

/-! ## Decomposition of the assembled panel -/

/-- A pairwise relation applied to two arbitrary members of a list. -/
lemma pairwise_two_mem {α : Type} (R : α → α → Prop) (l : List α)
    (h : List.Pairwise R l) (a b : α) (ha : a ∈ l) (hb : b ∈ l) :
    a = b ∨ R a b ∨ R b a := by
  induction l with
  | nil => exact absurd ha (List.not_mem_nil a)
  | cons x t ih =>
    rcases List.pairwise_cons.1 h with ⟨hhead, htail⟩
    rcases List.mem_cons.1 ha with rfl | ha2
    · rcases List.mem_cons.1 hb with rfl | hb2
      · exact Or.inl rfl
      · exact Or.inr (Or.inl (hhead b hb2))
    · rcases List.mem_cons.1 hb with rfl | hb2
      · exact Or.inr (Or.inr (hhead a ha2))
      · exact ih htail ha2 hb2

/-- Normal form of a successful panel assembly. -/
lemma createFromSynth_eq (synth : List Nat → List Row → String → Option (List Row))
    (e : List RawRow) (i : List IsoRow) (rg : List RegionRow) (p : List Row)
    (h : createFromSynth synth (some e) (some i) (some rg) = some p) :
    ∃ f fs,
      (densifyLoop (synth (allDates (prepare e)) (prepare e))
        (uniqueKeys ((prepare e).map (fun r => r.alpha_3_code)))).1 = f :: fs ∧
      p = replaceNames (applyOverrides (mergeRegions rg
        (addIndicators (sort_values countryDateLe ((f :: fs).flatten))))) := by
  simp only [createFromSynth] at h
  cases hfr : (densifyLoop (synth (allDates (prepare e)) (prepare e))
      (uniqueKeys ((prepare e).map (fun r => r.alpha_3_code)))).1 with
  | nil =>
    rw [hfr] at h
    exact absurd h (by simp)
  | cons f fs =>
    rw [hfr] at h
    exact ⟨f, fs, rfl, (Option.some_injective _ h).symm⟩

/-- Forward membership transport through merge, overrides and renaming. -/
lemma finalize_mem_fwd (rg : List RegionRow) (l : List Row) :
    ∀ x ∈ replaceNames (applyOverrides (mergeRegions rg l)),
      ∃ r ∈ l, x.alpha_3_code = r.alpha_3_code ∧ x.date_rep = r.date_rep ∧
        x.cum_cases = r.cum_cases ∧ x.cum_deaths = r.cum_deaths ∧
        x.mortality_rate = r.mortality_rate ∧
        x.infections_growth_rate = r.infections_growth_rate ∧
        x.deaths_growth_rate = r.deaths_growth_rate ∧
        x.country = replaceUnderscores r.country := by
  intro x hx
  rw [replaceNames_eq] at hx
  rcases List.mem_map.1 hx with ⟨y, hy, hyx⟩
  rw [applyOverrides_eq] at hy
  rcases List.mem_map.1 hy with ⟨z, hz, hzy⟩
  rcases mergeRegions_mem_fwd rg l z hz with ⟨r, hr, hzr⟩
  rcases exceptRegions_fields z r hzr with ⟨h1, h2, h3, h4, h5, h6, h7, h8, _⟩
  rcases overrideOne_fields z with ⟨o1, o2, o3, o4, o5, o6, o7, o8, _, _⟩
  refine ⟨r, hr, ?_, ?_, ?_, ?_, ?_, ?_, ?_, ?_⟩
  · rw [← hyx, ← hzy]; show (overrideOne z).alpha_3_code = r.alpha_3_code; rw [o1, h1]
  · rw [← hyx, ← hzy]; show (overrideOne z).date_rep = r.date_rep; rw [o2, h2]
  · rw [← hyx, ← hzy]; show (overrideOne z).cum_cases = r.cum_cases; rw [o3, h3]
  · rw [← hyx, ← hzy]; show (overrideOne z).cum_deaths = r.cum_deaths; rw [o4, h4]
  · rw [← hyx, ← hzy]; show (overrideOne z).mortality_rate = r.mortality_rate; rw [o6, h6]
  · rw [← hyx, ← hzy]
    show (overrideOne z).infections_growth_rate = r.infections_growth_rate
    rw [o7, h7]
  · rw [← hyx, ← hzy]
    show (overrideOne z).deaths_growth_rate = r.deaths_growth_rate
    rw [o8, h8]
  · rw [← hyx, ← hzy]
    show replaceUnderscores (overrideOne z).country = replaceUnderscores r.country
    rw [o5, h5]

/-- Backward membership transport through merge, overrides and renaming. -/
lemma finalize_mem_bwd (rg : List RegionRow) (l : List Row) :
    ∀ r ∈ l, ∃ x ∈ replaceNames (applyOverrides (mergeRegions rg l)),
      x.alpha_3_code = r.alpha_3_code ∧ x.date_rep = r.date_rep ∧
        x.cum_cases = r.cum_cases ∧ x.cum_deaths = r.cum_deaths := by
  intro r hr
  rcases mergeRegions_mem_bwd rg l r hr with ⟨z, hz, hzr⟩
  rcases exceptRegions_fields z r hzr with ⟨h1, h2, h3, h4, _, _, _, _, _⟩
  rcases overrideOne_fields z with ⟨o1, o2, o3, o4, _, _, _, _, _, _⟩
  refine ⟨{ overrideOne z with country := replaceUnderscores (overrideOne z).country },
    ?_, ?_, ?_, ?_, ?_⟩
  · rw [replaceNames_eq]
    refine List.mem_map.2 ⟨overrideOne z, ?_, rfl⟩
    rw [applyOverrides_eq]
    exact List.mem_map.2 ⟨z, hz, rfl⟩
  · show (overrideOne z).alpha_3_code = r.alpha_3_code
    rw [o1, h1]
  · show (overrideOne z).date_rep = r.date_rep
    rw [o2, h2]
  · show (overrideOne z).cum_cases = r.cum_cases
    rw [o3, h3]
  · show (overrideOne z).cum_deaths = r.cum_deaths
    rw [o4, h4]

/-- The growth-rate adjacency property and the row-wise invariant survive the
merge, the overrides and the renaming. -/
lemma finalize_chain (m : Nat) (rg : List RegionRow) (l : List Row)
    (h1 : List.Chain' c3Step l) (h2 : ∀ r ∈ l, rowInv m r) :
    List.Chain' c3Step (replaceNames (applyOverrides (mergeRegions rg l))) ∧
      ∀ x ∈ replaceNames (applyOverrides (mergeRegions rg l)), rowInv m x := by
  rcases mergeRegions_chain m rg l h1 h2 with ⟨hc, hi⟩
  have hover : List.Chain' c3Step (applyOverrides (mergeRegions rg l)) ∧
      ∀ x ∈ applyOverrides (mergeRegions rg l), rowInv m x := by
    rw [applyOverrides_eq]
    constructor
    · refine List.chain'_map_of_chain' overrideOne ?_ hc
      intro a b hab
      rcases overrideOne_fields a with ⟨a1, _, a3, a4, _, _, _, _, _, _⟩
      rcases overrideOne_fields b with ⟨b1, _, _, _, _, _, b7, b8, _, _⟩
      exact c3Step_transfer a b (overrideOne a) (overrideOne b) a1 b1 a3 a4 b7 b8 hab
    · intro x hx
      rcases List.mem_map.1 hx with ⟨z, hz, hzx⟩
      rcases overrideOne_fields z with ⟨_, z2, z3, z4, _, _, z7, z8, _, _⟩
      rw [← hzx]
      exact rowInv_transfer m z (overrideOne z) z2 z3 z4 z7 z8 (hi z hz)
  constructor
  · rw [replaceNames_eq]
    refine List.chain'_map_of_chain' _ ?_ hover.1
    intro a b hab
    exact c3Step_transfer a b _ _ rfl rfl rfl rfl rfl rfl hab
  · intro x hx
    rw [replaceNames_eq] at hx
    rcases List.mem_map.1 hx with ⟨z, hz, hzx⟩
    rw [← hzx]
    exact rowInv_transfer m z _ rfl rfl rfl rfl rfl (hover.2 z hz)

/-! ## Facts about the sorted concatenated panel -/

/-- Every row of the sorted concatenated panel belongs to the frame of its
own alpha-3 code. -/
lemma s_mem_frame (e : List RawRow) (frames : List (List Row)) (s : List Row)
    (hframes : (densifyLoop (fillCountry (allDates (prepare e)) (prepare e))
        (uniqueKeys ((prepare e).map (fun r => r.alpha_3_code)))).1 = frames)
    (hs : s = sort_values countryDateLe frames.flatten)
    (a : Row) (ha : a ∈ s) :
    ∃ fa, fillCountry (allDates (prepare e)) (prepare e) a.alpha_3_code = some fa ∧
      a ∈ fa ∧ fa ∈ frames ∧
      a.alpha_3_code ∈ uniqueKeys ((prepare e).map (fun r => r.alpha_3_code)) := by
  rw [hs] at ha
  have ha2 : a ∈ frames.flatten := mem_sort_values.1 ha
  rcases List.mem_flatten.1 ha2 with ⟨fa, hfa, hafa⟩
  rcases densifyLoop_frames _ _ fa (hframes ▸ hfa) with ⟨c, hcm, hc⟩
  have hcode : a.alpha_3_code = c := (fillCountry_mem _ _ _ _ hc a hafa).1
  exact ⟨fa, hcode ▸ hc, hafa, hfa, hcode ▸ hcm⟩

/-- Within an entity, a strictly earlier date of the sorted concatenated
panel never carries larger cumulative counters. -/
lemma s_cum_mono_set (e : List RawRow) (frames : List (List Row)) (s : List Row)
    (hframes : (densifyLoop (fillCountry (allDates (prepare e)) (prepare e))
        (uniqueKeys ((prepare e).map (fun r => r.alpha_3_code)))).1 = frames)
    (hs : s = sort_values countryDateLe frames.flatten) :
    ∀ a ∈ s, ∀ b ∈ s, a.alpha_3_code = b.alpha_3_code → a.date_rep < b.date_rep →
      a.cum_cases ≤ b.cum_cases ∧ a.cum_deaths ≤ b.cum_deaths := by
  intro a ha b hb hcode hdate
  rcases s_mem_frame e frames s hframes hs a ha with ⟨fa, hfa, hafa, _, _⟩
  rcases s_mem_frame e frames s hframes hs b hb with ⟨fb, hfb, hbfb, _, _⟩
  rw [hcode] at hfa
  have hfe : fa = fb := Option.some_injective _ (hfa.symm.trans hfb)
  subst hfe
  have hpair := fillCountry_pairwise _ _ _ _ hfb
  rcases pairwise_two_mem _ _ hpair a b hafa hbfb with rfl | h | h
  · omega
  · exact ⟨h.2.1, h.2.2⟩
  · omega

/-- The minimum date of the prepared feed bounds every row of the sorted
concatenated panel. -/
lemma s_date_lb (e : List RawRow) (frames : List (List Row)) (s : List Row)
    (hframes : (densifyLoop (fillCountry (allDates (prepare e)) (prepare e))
        (uniqueKeys ((prepare e).map (fun r => r.alpha_3_code)))).1 = frames)
    (hs : s = sort_values countryDateLe frames.flatten) :
    ∀ a ∈ s, panelMinDate (prepare e) ≤ a.date_rep := by
  intro a ha
  rcases s_mem_frame e frames s hframes hs a ha with ⟨fa, hfa, hafa, _, _⟩
  refine fillCountry_date_lb _ _ _ _ hfa (panelMinDate (prepare e)) ?_ ?_ a hafa
  · intro r hr
    exact panelMinDate_le_mem _ r hr
  · intro d hd
    exact allDates_lo_le _ d hd

/-- Every entity of the sorted concatenated panel has a row dated at the
minimum date of the prepared feed. -/
lemma s_min_attain_class (e : List RawRow) (frames : List (List Row)) (s : List Row)
    (hframes : (densifyLoop (fillCountry (allDates (prepare e)) (prepare e))
        (uniqueKeys ((prepare e).map (fun r => r.alpha_3_code)))).1 = frames)
    (hs : s = sort_values countryDateLe frames.flatten) :
    ∀ a ∈ s, ∃ b ∈ s, b.alpha_3_code = a.alpha_3_code ∧
      b.date_rep = panelMinDate (prepare e) := by
  intro a ha
  rcases s_mem_frame e frames s hframes hs a ha with ⟨fa, hfa, hafa, hfaf, _⟩
  have hne : prepare e ≠ [] := by
    rcases fillCountry_eq _ _ _ _ hfa with ⟨r0, rest, hfil, _⟩
    intro hnil
    rw [hnil] at hfil
    simp at hfil
  have hlo : panelMinDate (prepare e) ∈ allDates (prepare e) :=
    panelMinDate_mem_allDates _ hne
  rcases fillCountry_span _ _ _ _ hfa _ hlo with ⟨b, hbfa, hbd⟩
  have hbs : b ∈ s := by
    rw [hs]
    exact mem_sort_values.2 (List.mem_flatten.2 ⟨fa, hfaf, hbfa⟩)
  exact ⟨b, hbs, (fillCountry_mem _ _ _ _ hfa b hbfa).1, hbd⟩

/-- The minimum date of the sorted concatenated panel equals the minimum date
of the prepared feed. -/
lemma s_min_eq (e : List RawRow) (frames : List (List Row)) (s : List Row)
    (hframes : (densifyLoop (fillCountry (allDates (prepare e)) (prepare e))
        (uniqueKeys ((prepare e).map (fun r => r.alpha_3_code)))).1 = frames)
    (hs : s = sort_values countryDateLe frames.flatten)
    (hne : s ≠ []) :
    panelMinDate s = panelMinDate (prepare e) := by
  rcases List.exists_mem_of_ne_nil s hne with ⟨a, ha⟩
  rcases s_min_attain_class e frames s hframes hs a ha with ⟨b, hbs, _, hbd⟩
  exact panelMinDate_eq s _ (s_date_lb e frames s hframes hs) ⟨b, hbs, hbd⟩

/-- Under distinct display names per entity, the country and the code of two
rows of the sorted concatenated panel identify each other. -/
lemma s_name_code (e : List RawRow) (frames : List (List Row)) (s : List Row)
    (hframes : (densifyLoop (fillCountry (allDates (prepare e)) (prepare e))
        (uniqueKeys ((prepare e).map (fun r => r.alpha_3_code)))).1 = frames)
    (hs : s = sort_values countryDateLe frames.flatten)
    (hnames : ∀ r1 ∈ prepare e, ∀ r2 ∈ prepare e,
      (r1.country = r2.country ↔ r1.alpha_3_code = r2.alpha_3_code)) :
    ∀ a ∈ s, ∀ b ∈ s, (a.country = b.country ↔ a.alpha_3_code = b.alpha_3_code) := by
  intro a ha b hb
  rcases s_mem_frame e frames s hframes hs a ha with ⟨fa, hfa, hafa, _, _⟩
  rcases s_mem_frame e frames s hframes hs b hb with ⟨fb, hfb, hbfb, _, _⟩
  rcases (fillCountry_mem _ _ _ _ hfa a hafa).2 with ⟨pa, hpa, hpac, hpacode⟩
  rcases (fillCountry_mem _ _ _ _ hfb b hbfb).2 with ⟨pb, hpb, hpbc, hpbcode⟩
  rw [hpac, hpbc, hnames pa hpa pb hpb, hpacode, hpbcode]

/-- Frames of codes other than `c` contribute nothing to the filter on
`c`. -/
lemma densify_flatten_filter_nil (synth : String → Option (List Row)) :
    ∀ (cs : List String) (c : String),
    (∀ c2 ∈ cs, ∀ f, synth c2 = some f → ∀ r ∈ f, r.alpha_3_code = c2) →
    c ∉ cs →
    ((densifyLoop synth cs).1.flatten).filter (fun r => r.alpha_3_code == c) = [] := by
  intro cs
  induction cs with
  | nil => intro c _ _; rfl
  | cons c0 cs ih =>
    intro c hcode hnm
    have hnm0 : c ≠ c0 := fun he => hnm (he ▸ List.mem_cons_self c0 cs)
    have hnmt : c ∉ cs := fun hm => hnm (List.mem_cons_of_mem c0 hm)
    have hcodet : ∀ c2 ∈ cs, ∀ f, synth c2 = some f → ∀ r ∈ f, r.alpha_3_code = c2 :=
      fun c2 h2 => hcode c2 (List.mem_cons_of_mem c0 h2)
    unfold densifyLoop
    cases hc0 : synth c0 with
    | some f0 =>
      simp only [List.flatten_cons, List.filter_append]
      rw [ih c hcodet hnmt, List.append_nil]
      refine List.filter_eq_nil_iff.2 ?_
      intro r hr
      have : r.alpha_3_code = c0 := hcode c0 (List.mem_cons_self c0 cs) f0 hc0 r hr
      simp [this, Ne.symm hnm0]
    | none => exact ih c hcodet hnmt

/-- With pairwise distinct codes, filtering the concatenated frames on a
synthesised code recovers exactly that code's frame. -/
lemma densify_flatten_filter (synth : String → Option (List Row)) :
    ∀ (cs : List String), cs.Nodup →
    (∀ c2 ∈ cs, ∀ f, synth c2 = some f → ∀ r ∈ f, r.alpha_3_code = c2) →
    ∀ c fc, c ∈ cs → synth c = some fc →
    ((densifyLoop synth cs).1.flatten).filter (fun r => r.alpha_3_code == c) = fc := by
  intro cs
  induction cs with
  | nil => intro _ _ c fc hm; exact absurd hm (List.not_mem_nil c)
  | cons c0 cs ih =>
    intro hnd hcode c fc hm hfc
    have hndt : cs.Nodup := (List.nodup_cons.1 hnd).2
    have hc0n : c0 ∉ cs := (List.nodup_cons.1 hnd).1
    have hcodet : ∀ c2 ∈ cs, ∀ f, synth c2 = some f → ∀ r ∈ f, r.alpha_3_code = c2 :=
      fun c2 h2 => hcode c2 (List.mem_cons_of_mem c0 h2)
    unfold densifyLoop
    rcases List.mem_cons.1 hm with rfl | hmt
    · rw [hfc]
      simp only [List.flatten_cons, List.filter_append]
      rw [densify_flatten_filter_nil synth cs c hcodet hc0n, List.append_nil]
      refine List.filter_eq_self.2 ?_
      intro r hr
      have : r.alpha_3_code = c := hcode c (List.mem_cons_self c cs) fc hfc r hr
      simp [this]
    · have hne : c ≠ c0 := fun he => hc0n (he ▸ hmt)
      cases hc0 : synth c0 with
      | some f0 =>
        simp only [List.flatten_cons, List.filter_append]
        rw [ih hndt hcodet c fc hmt hfc]
        have h0 : f0.filter (fun r => r.alpha_3_code == c) = [] := by
          refine List.filter_eq_nil_iff.2 ?_
          intro r hr
          have : r.alpha_3_code = c0 := hcode c0 (List.mem_cons_self c0 cs) f0 hc0 r hr
          simp [this, Ne.symm hne]
        rw [h0, List.nil_append]
      | none => exact ih hndt hcodet c fc hmt hfc

/-- Under distinct display names per entity, filtering the sorted panel on a
code recovers that code's frame in order (stability of the sort). -/
lemma s_filter_eq (e : List RawRow) (frames : List (List Row)) (s : List Row)
    (hframes : (densifyLoop (fillCountry (allDates (prepare e)) (prepare e))
        (uniqueKeys ((prepare e).map (fun r => r.alpha_3_code)))).1 = frames)
    (hs : s = sort_values countryDateLe frames.flatten)
    (hnames : ∀ r1 ∈ prepare e, ∀ r2 ∈ prepare e,
      (r1.country = r2.country ↔ r1.alpha_3_code = r2.alpha_3_code))
    (c : String) (fc : List Row)
    (hfc : fillCountry (allDates (prepare e)) (prepare e) c = some fc)
    (hcm : c ∈ uniqueKeys ((prepare e).map (fun r => r.alpha_3_code))) :
    s.filter (fun r => r.alpha_3_code == c) = fc := by
  have hcodes : ∀ c2 ∈ uniqueKeys ((prepare e).map (fun r => r.alpha_3_code)), ∀ f,
      fillCountry (allDates (prepare e)) (prepare e) c2 = some f →
      ∀ r ∈ f, r.alpha_3_code = c2 :=
    fun c2 _ f hf r hr => (fillCountry_mem _ _ _ _ hf r hr).1
  -- all rows of the frame share one display name
  have hsame : ∀ a ∈ fc, ∀ b ∈ fc, a.country = b.country := by
    intro a ha b hb
    rcases (fillCountry_mem _ _ _ _ hfc a ha).2 with ⟨pa, hpa, hpac, hpacode⟩
    rcases (fillCountry_mem _ _ _ _ hfc b hb).2 with ⟨pb, hpb, hpbc, hpbcode⟩
    rw [hpac, hpbc]
    exact (hnames pa hpa pb hpb).2 (hpacode.trans hpbcode.symm)
  have hpairwise : List.Pairwise (fun a b => countryDateLe a b = true) fc := by
    have hp := fillCountry_pairwise _ _ _ _ hfc
    refine List.Pairwise.imp_of_mem ?_ hp
    intro a b ha hb hab
    simp only [countryDateLe, Bool.or_eq_true, Bool.and_eq_true, decide_eq_true_eq]
    exact Or.inr ⟨hsame a ha b hb, hab.1⟩
  have hsub : fc.Sublist (sort_values countryDateLe frames.flatten) := by
    have h1 : fc ∈ frames := by
      rw [← hframes]
      exact densifyLoop_mem _ _ c hcm fc hfc
    exact sublist_sort_values hpairwise (List.sublist_flatten_of_mem h1)
  have hsubf : fc.Sublist (s.filter (fun r => r.alpha_3_code == c)) := by
    have hself : fc.filter (fun r => r.alpha_3_code == c) = fc := by
      refine List.filter_eq_self.2 ?_
      intro r hr
      have : r.alpha_3_code = c := (fillCountry_mem _ _ _ _ hfc r hr).1
      simp [this]
    have := List.Sublist.filter (fun r => r.alpha_3_code == c) hsub
    rw [hself, ← hs] at this
    exact this
  have hlen : (s.filter (fun r => r.alpha_3_code == c)).length = fc.length := by
    have hperm : s.Perm frames.flatten := by
      rw [hs]; exact sort_values_perm _ _
    have h1 := (hperm.filter (fun r => r.alpha_3_code == c)).length_eq
    rw [h1, ← hframes]
    rw [densify_flatten_filter (fillCountry (allDates (prepare e)) (prepare e))
      (uniqueKeys ((prepare e).map (fun r => r.alpha_3_code))) (uniqueKeys_nodup _)
      hcodes c fc hcm hfc]
  exact (hsubf.eq_of_length hlen.symm).symm

/-- Under distinct display names per entity, the sorted panel switches
entity only at rows dated at the feed's minimum date. -/
lemma s_boundary (e : List RawRow) (frames : List (List Row)) (s : List Row)
    (hframes : (densifyLoop (fillCountry (allDates (prepare e)) (prepare e))
        (uniqueKeys ((prepare e).map (fun r => r.alpha_3_code)))).1 = frames)
    (hs : s = sort_values countryDateLe frames.flatten)
    (hnames : ∀ r1 ∈ prepare e, ∀ r2 ∈ prepare e,
      (r1.country = r2.country ↔ r1.alpha_3_code = r2.alpha_3_code)) :
    ∀ (i : Nat) (h1 : i < s.length) (h2 : i + 1 < s.length),
      s[i].alpha_3_code ≠ s[i + 1].alpha_3_code →
      s[i + 1].date_rep = panelMinDate (prepare e) := by
  have hsort : List.Pairwise (fun a b => countryDateLe a b = true) s := by
    rw [hs]
    exact sorted_sort_values countryDateLe countryDateLe_trans countryDateLe_total _
  have hsortg := List.pairwise_iff_getElem.1 hsort
  intro i h1 h2 hne
  have ham : s[i] ∈ s := List.getElem_mem h1
  have hbm : s[i + 1] ∈ s := List.getElem_mem h2
  have hab : countryDateLe s[i] s[i + 1] = true := hsortg i (i + 1) h1 h2 (by omega)
  have hcne : s[i].country ≠ s[i + 1].country := by
    intro hceq
    exact hne ((s_name_code e frames s hframes hs hnames _ ham _ hbm).1 hceq)
  have hclt : stringLt s[i].country s[i + 1].country = true := by
    rcases countryDateLe_cases hab with h | h
    · exact h
    · exact absurd h hcne
  rcases s_min_attain_class e frames s hframes hs _ hbm with ⟨bm, hbms, hbmc, hbmd⟩
  have hbmcountry : bm.country = s[i + 1].country :=
    (s_name_code e frames s hframes hs hnames bm hbms _ hbm).2 hbmc
  rcases List.mem_iff_getElem.1 hbms with ⟨j, hj, hje⟩
  rcases Nat.lt_trichotomy j (i + 1) with hlt | heq | hgt
  · -- the minimum-date row of the next entity cannot precede the boundary
    exfalso
    rcases Nat.lt_or_ge j i with hji | hji
    · have hcd : countryDateLe bm s[i] = true := by
        have hpl := hsortg j i hj h1 hji
        rw [hje] at hpl
        exact hpl
      rcases countryDateLe_cases hcd with h | h
      · rw [hbmcountry] at h
        rw [stringLt_asymm hclt] at h
        exact absurd h (by simp)
      · rw [hbmcountry] at h
        exact hcne h.symm
    · have hji2 : j = i := by omega
      subst hji2
      rw [← hje] at hbmcountry
      exact hcne hbmcountry
  · subst heq
    rw [hje]
    exact hbmd
  · have hcd : countryDateLe s[i + 1] bm = true := by
      have hpl := hsortg (i + 1) j h2 hj hgt
      rw [hje] at hpl
      exact hpl
    have hdle : s[i + 1].date_rep ≤ bm.date_rep :=
      countryDateLe_date_le hcd hbmcountry.symm
    have hlb := s_date_lb e frames s hframes hs _ hbm
    omega

/-- Under distinct display names per entity, the sorted panel satisfies the
pre-indicator adjacency property: entity switches only at minimum-date rows,
and cumulative counters are monotone within an entity. -/
lemma s_chain_pre (e : List RawRow) (frames : List (List Row)) (s : List Row)
    (hframes : (densifyLoop (fillCountry (allDates (prepare e)) (prepare e))
        (uniqueKeys ((prepare e).map (fun r => r.alpha_3_code)))).1 = frames)
    (hs : s = sort_values countryDateLe frames.flatten)
    (hnames : ∀ r1 ∈ prepare e, ∀ r2 ∈ prepare e,
      (r1.country = r2.country ↔ r1.alpha_3_code = r2.alpha_3_code)) :
    List.Chain' (c3Pre (panelMinDate (prepare e))) s := by
  rw [List.chain'_iff_get]
  intro i h
  have h1 : i < s.length := by omega
  have h2 : i + 1 < s.length := by omega
  constructor
  · intro hne
    exact s_boundary e frames s hframes hs hnames i h1 h2 hne
  · intro heq
    have ham : s[i] ∈ s := List.getElem_mem h1
    rcases s_mem_frame e frames s hframes hs _ ham with ⟨fa, hfa, _, _, hcm⟩
    have hfilter := s_filter_eq e frames s hframes hs hnames _ fa hfa hcm
    have hPfa := fillCountry_pairwise _ _ _ _ hfa
    rw [← hfilter] at hPfa
    have hpull := pairwise_pullback_filter
      (fun r => r.alpha_3_code == s[i].alpha_3_code) _ s hPfa
    have hP := List.pairwise_iff_getElem.1 hpull i (i + 1) h1 h2 (by omega)
    have heq2 : s[i].alpha_3_code = s[i + 1].alpha_3_code := heq
    rcases hP (by simp) (by simp [heq2.symm]) with ⟨_, hcc, hcd⟩
    exact ⟨hcc, hcd⟩

/-! ## Lemmas for the retry loop and the entity-code fetch -/

/-- When every fetch fails, the retry loop visits exactly the first `N`
stepped dates and reports failure. -/
lemma ecdcLoop_all_fail (success : Int → Bool) (hfail : ∀ d, success d = false)
    (step : Int) : ∀ (N : Nat), 1 ≤ N → ∀ (date : Int),
    ecdcLoop success step date N =
      ((List.range N).map (fun (k : Nat) => date + step * (k : Int)), none) := by
  intro N
  induction N with
  | zero => intro h; omega
  | succ n ih =>
    intro _ date
    unfold ecdcLoop
    rw [hfail date]
    by_cases hn : n = 0
    · subst hn
      have hone : List.range 1 = [0] := rfl
      simp [hone]
    · have hgt : ¬ (n + 1 ≤ 1) := by omega
      simp only [Bool.false_eq_true, if_false, if_neg hgt]
      rw [Nat.add_sub_cancel]
      rw [ih (by omega) (date + step)]
      simp only [List.range_succ_eq_map, List.map_cons, List.map_map]
      rw [Prod.mk.injEq]
      refine ⟨?_, rfl⟩
      rw [List.cons.injEq]
      constructor
      · simp
      · apply List.map_congr_left
        intro k _
        simp only [Function.comp, Nat.succ_eq_add_one]
        push_cast
        ring

/-- Counting the rows of an entity-code table by the three possible length
comparisons of the alpha-3 code. -/
lemma filter_length_trichotomy (l : List IsoRow) :
    (l.filter (fun r => r.alpha_3_code.length = 3)).length +
      (l.filter (fun r => 3 < r.alpha_3_code.length)).length +
      (l.filter (fun r => r.alpha_3_code.length < 3)).length = l.length := by
  induction l with
  | nil => rfl
  | cons r t ih =>
    rcases Nat.lt_trichotomy r.alpha_3_code.length 3 with h | h | h
    · have h1 : ¬ (r.alpha_3_code.length = 3) := by omega
      have h2 : ¬ (3 < r.alpha_3_code.length) := by omega
      simp only [List.filter_cons]
      rw [if_neg (by simpa using h1), if_neg (by simpa using h2),
        if_pos (by simpa using h)]
      simp only [List.length_cons]
      omega
    · have h2 : ¬ (3 < r.alpha_3_code.length) := by omega
      have h3 : ¬ (r.alpha_3_code.length < 3) := by omega
      simp only [List.filter_cons]
      rw [if_pos (by simpa using h), if_neg (by simpa using h2),
        if_neg (by simpa using h3)]
      simp only [List.length_cons]
      omega
    · have h1 : ¬ (r.alpha_3_code.length = 3) := by omega
      have h3 : ¬ (r.alpha_3_code.length < 3) := by omega
      simp only [List.filter_cons]
      rw [if_neg (by simpa using h1), if_pos (by simpa using h),
        if_neg (by simpa using h3)]
      simp only [List.length_cons]
      omega

/-! ## Claim C5 -/

/-- C5: with `max_consecutive_dates = N` (`N ≥ 1`) and every retrieval
failing, the primary-feed fetch makes exactly `N` attempts — the first at the
reference date, each later one stepped by one day in the walk direction —
then returns no dataframe, and the assembly of that run produces no panel. -/
theorem c5_retry_exhaustion (success : Int → Bool) (as_at_date : Int) (N : Nat)
    (walk_back : Bool) (hN : 1 ≤ N) (hfail : ∀ d, success d = false) :
    (get_latest_ecdc_data success as_at_date (N : Int) walk_back).1 =
      (List.range N).map
        (fun (k : Nat) => as_at_date + (if walk_back then -1 else 1) * (k : Int)) ∧
    (get_latest_ecdc_data success as_at_date (N : Int) walk_back).2 = none ∧
    ∀ iso regions, generate_country_level_dataset none iso regions = none := by
  unfold get_latest_ecdc_data
  rw [Int.toNat_natCast]
  rw [ecdcLoop_all_fail success hfail _ N hN as_at_date]
  refine ⟨rfl, rfl, ?_⟩
  intro iso regions
  simp [generate_country_level_dataset, integrityCheckRepr]

/-- Witness for C5 at `N = 3`, reference date 0, walking backward. -/
theorem c5_retry_exhaustion_witness :
    (get_latest_ecdc_data (fun _ => false) 0 ((3 : Nat) : Int) true).1 = [0, -1, -2] ∧
    (get_latest_ecdc_data (fun _ => false) 0 ((3 : Nat) : Int) true).2 = none ∧
    generate_country_level_dataset none (some []) (some []) = none := by
  have h := c5_retry_exhaustion (fun _ => false) 0 3 true (by norm_num) (fun d => rfl)
  refine ⟨?_, h.2.1, h.2.2 (some []) (some [])⟩
  rw [h.1]
  decide

/-! ## Claim C6 -/

/-- C6 counterexample: a run missing only the primary feed and a run missing
only the entity-code table produce the same printed integrity report
(`[None]` in both cases), so the report does not say which input is missing,
contrary to the claim. -/
theorem c6_report_counterexample :
    integrityCheckRepr none (some []) (some []) = ["None"] ∧
    integrityCheckRepr (some []) none (some []) = ["None"] := ⟨rfl, rfl⟩

/-- C6 (amended): if any of the three raw inputs is absent the assembler
aborts before densification and produces no panel; the integrity report is
nonempty and its length is the number of missing inputs, but it carries only
the literal `None` entries, not which inputs are missing. -/
theorem c6_integrity_abort_amended (raw : Option (List RawRow))
    (iso : Option (List IsoRow)) (regions : Option (List RegionRow))
    (h : raw = none ∨ iso = none ∨ regions = none) :
    generate_country_level_dataset raw iso regions = none ∧
    integrityCheckRepr raw iso regions ≠ [] ∧
    (integrityCheckRepr raw iso regions).length =
      (if raw = none then 1 else 0) + (if iso = none then 1 else 0) +
        (if regions = none then 1 else 0) := by
  cases raw <;> cases iso <;> cases regions <;>
    simp_all [generate_country_level_dataset, integrityCheckRepr]

/-- Witness for C6 with a missing primary feed. -/
theorem c6_integrity_abort_amended_witness :
    generate_country_level_dataset none (some []) (some []) = none ∧
    integrityCheckRepr none (some []) (some []) ≠ [] ∧
    (integrityCheckRepr none (some []) (some [])).length = 1 := by
  have h := c6_integrity_abort_amended none (some []) (some []) (Or.inl rfl)
  refine ⟨h.1, h.2.1, ?_⟩
  have h2 := h.2.2
  simpa using h2

/-! ## Claim C7 -/

/-- C7 counterexample: a parsed table with a length-3 row and a length-2 row.
The length-2 row is excluded from the returned table, yet the rejects holder
is empty — the row was silently dropped, contradicting the claim that every
excluded row is retained for inspection. -/
theorem c7_silent_drop_counterexample :
    get_iso_country_codes_data
      [(⟨"X", "QQ", "ABC"⟩ : IsoRow), (⟨"W", "WW", "AB"⟩ : IsoRow)] true =
      some ([(⟨"X", "AF", "ABC"⟩ : IsoRow)], some []) := by
  decide

/-- C7 (amended): the returned table keeps exactly the rows whose alpha-3
code has length 3; the rejects holder retains exactly the rows whose code is
longer than 3; rows with a shorter code are excluded from both (silently
dropped), and the three groups partition the parsed table. -/
theorem c7_length_partition_amended (r0 : IsoRow) (rest : List IsoRow)
    (kept dropped : List IsoRow)
    (h : get_iso_country_codes_data (r0 :: rest) true = some (kept, some dropped)) :
    (∀ r, r ∈ kept ↔
      (r ∈ ({ r0 with alpha_2_code := "AF" } :: rest) ∧ r.alpha_3_code.length = 3)) ∧
    (∀ r, r ∈ dropped ↔
      (r ∈ ({ r0 with alpha_2_code := "AF" } :: rest) ∧ 3 < r.alpha_3_code.length)) ∧
    kept.length + dropped.length +
      (({ r0 with alpha_2_code := "AF" } :: rest).filter
        (fun r => r.alpha_3_code.length < 3)).length = (r0 :: rest).length := by
  have h2 : kept = ({ r0 with alpha_2_code := "AF" } :: rest).filter
        (fun r => r.alpha_3_code.length = 3) ∧
      dropped = ({ r0 with alpha_2_code := "AF" } :: rest).filter
        (fun r => 3 < r.alpha_3_code.length) := by
    unfold get_iso_country_codes_data at h
    simp only [if_pos] at h
    have := Option.some_injective _ h
    constructor
    · exact congrArg Prod.fst this |>.symm
    · have hsnd := congrArg Prod.snd this
      simpa using hsnd.symm
  rcases h2 with ⟨hk, hd⟩
  subst hk
  subst hd
  refine ⟨?_, ?_, ?_⟩
  · intro r
    simp [List.mem_filter]
  · intro r
    simp [List.mem_filter]
  · have := filter_length_trichotomy ({ r0 with alpha_2_code := "AF" } :: rest)
    simpa using this

/-- Witness for C7 on a concrete three-row table with lengths 3, 4 and 2. -/
theorem c7_length_partition_amended_witness :
    (∀ r, r ∈ ([(⟨"X", "AF", "ABC"⟩ : IsoRow)] : List IsoRow) ↔
      (r ∈ [(⟨"X", "AF", "ABC"⟩ : IsoRow), (⟨"Y", "YY", "ABCD"⟩ : IsoRow),
            (⟨"W", "WW", "AB"⟩ : IsoRow)] ∧ r.alpha_3_code.length = 3)) ∧
    (∀ r, r ∈ ([(⟨"Y", "YY", "ABCD"⟩ : IsoRow)] : List IsoRow) ↔
      (r ∈ [(⟨"X", "AF", "ABC"⟩ : IsoRow), (⟨"Y", "YY", "ABCD"⟩ : IsoRow),
            (⟨"W", "WW", "AB"⟩ : IsoRow)] ∧ 3 < r.alpha_3_code.length)) ∧
    ([(⟨"X", "AF", "ABC"⟩ : IsoRow)] : List IsoRow).length +
      ([(⟨"Y", "YY", "ABCD"⟩ : IsoRow)] : List IsoRow).length +
      (([(⟨"X", "AF", "ABC"⟩ : IsoRow), (⟨"Y", "YY", "ABCD"⟩ : IsoRow),
         (⟨"W", "WW", "AB"⟩ : IsoRow)] : List IsoRow).filter
        (fun r => r.alpha_3_code.length < 3)).length = 3 := by
  have h := c7_length_partition_amended (⟨"X", "QQ", "ABC"⟩ : IsoRow)
    [(⟨"Y", "YY", "ABCD"⟩ : IsoRow), (⟨"W", "WW", "AB"⟩ : IsoRow)]
    [(⟨"X", "AF", "ABC"⟩ : IsoRow)] [(⟨"Y", "YY", "ABCD"⟩ : IsoRow)] (by decide)
  exact ⟨h.1, h.2.1, h.2.2⟩

/-! ## Claim C10 -/

/-- C10 counterexample: the parsed first row has a length-4 code, so it is
filtered out after the `AF` overwrite; the returned table's first row keeps
its own short code `XX`, not `AF`, refuting the claim that the returned
table's first row always carries `AF`. -/
theorem c10_first_row_counterexample :
    (get_iso_country_codes_data
      [(⟨"X", "QQ", "ABCD"⟩ : IsoRow), (⟨"Y", "XX", "ABC"⟩ : IsoRow)] true).map
      (fun pr => pr.1.map (fun r => r.alpha_2_code)) = some ["XX"] := by
  decide

/-- C10 (amended): the fetch unconditionally overwrites the short code of the
first row of the parsed table with `AF` before the length filter; the
returned table's first row carries `AF` when filtering is disabled, and when
filtering is enabled it carries `AF` provided the parsed first row's alpha-3
code has length exactly 3 (so the overwritten row survives the filter in
first position). -/
theorem c10_af_overwrite_amended (r0 : IsoRow) (rest : List IsoRow) :
    (∀ kept d, get_iso_country_codes_data (r0 :: rest) false = some (kept, d) →
      kept.head?.map (fun r => r.alpha_2_code) = some "AF") ∧
    (∀ kept d, r0.alpha_3_code.length = 3 →
      get_iso_country_codes_data (r0 :: rest) true = some (kept, d) →
      kept.head?.map (fun r => r.alpha_2_code) = some "AF") := by
  constructor
  · intro kept d h
    unfold get_iso_country_codes_data at h
    have h2 : ({ r0 with alpha_2_code := "AF" } :: rest, (none : Option (List IsoRow))) =
        (kept, d) := Option.some_injective _ h
    rw [Prod.mk.injEq] at h2
    rw [← h2.1]
    rfl
  · intro kept d h3 h
    unfold get_iso_country_codes_data at h
    have h2 : (({ r0 with alpha_2_code := "AF" } :: rest).filter
          (fun r => r.alpha_3_code.length = 3),
        some (({ r0 with alpha_2_code := "AF" } :: rest).filter
          (fun r => 3 < r.alpha_3_code.length))) = (kept, d) :=
      Option.some_injective _ h
    rw [Prod.mk.injEq] at h2
    rw [← h2.1]
    have hcond : (({ r0 with alpha_2_code := "AF" } : IsoRow).alpha_3_code.length = 3) := h3
    simp only [List.filter_cons]
    rw [if_pos (by simpa using hcond)]
    rfl

/-- Witness for C10 on a table whose first row has a length-3 code. -/
theorem c10_af_overwrite_amended_witness :
    (∀ kept d, get_iso_country_codes_data
        [(⟨"X", "QQ", "ABC"⟩ : IsoRow), (⟨"Y", "YY", "ABCD"⟩ : IsoRow)] false =
        some (kept, d) → kept.head?.map (fun r => r.alpha_2_code) = some "AF") ∧
    (∀ kept d, ((⟨"X", "QQ", "ABC"⟩ : IsoRow)).alpha_3_code.length = 3 →
      get_iso_country_codes_data
        [(⟨"X", "QQ", "ABC"⟩ : IsoRow), (⟨"Y", "YY", "ABCD"⟩ : IsoRow)] true =
        some (kept, d) → kept.head?.map (fun r => r.alpha_2_code) = some "AF") :=
  c10_af_overwrite_amended (⟨"X", "QQ", "ABC"⟩ : IsoRow) [(⟨"Y", "YY", "ABCD"⟩ : IsoRow)]

/-- Component equalities of the non-indicator projection. -/
lemma coreOf_fields (a b : Row) (h : coreOf a = coreOf b) :
    a.date_rep = b.date_rep ∧ a.cum_cases = b.cum_cases ∧
    a.cum_deaths = b.cum_deaths ∧ a.country = b.country ∧
    a.alpha_3_code = b.alpha_3_code := by
  simp only [coreOf, Prod.mk.injEq] at h
  exact ⟨h.1, h.2.2.2.1, h.2.2.2.2.1, h.2.2.2.2.2.1, h.2.2.2.2.2.2.2.1⟩

/-! ## Claim C9 -/

/-- C9 counterexample: the feed lists a single entity and its synthesis
raises; the loop skips it, every frame is lost, and `pd.concat` of an empty
list raises — the run aborts with no panel, contradicting the claim that a
single entity's synthesis failure never aborts the whole assembly. -/
theorem c9_sole_entity_counterexample :
    createFromSynth (fun _ _ _ => none)
      (some [sampleRaw "Aland" "AA" (some "AAA") 0 1 0 none]) (some []) (some []) =
      none := by
  rfl

/-- C9 (amended): if the synthesis of one entity raises while at least one
listed entity synthesises successfully, the failing entity is skipped — its
code is logged and none of its rows reach the panel — and the run still
returns a panel; with no surviving entity (for instance when the failing
entity is the only one) the concatenation itself raises and no panel is
produced. -/
theorem c9_entity_skip_amended
    (synth : List Nat → List Row → String → Option (List Row))
    (e : List RawRow) (i : List IsoRow) (rg : List RegionRow) (bad : String)
    (hbad : synth (allDates (prepare e)) (prepare e) bad = none)
    (hrows : ∀ c f, synth (allDates (prepare e)) (prepare e) c = some f →
      ∀ r ∈ f, r.alpha_3_code = c)
    (hsome : ∃ c ∈ uniqueKeys ((prepare e).map (fun r => r.alpha_3_code)),
      ∃ f, synth (allDates (prepare e)) (prepare e) c = some f) :
    ∃ p, createFromSynth synth (some e) (some i) (some rg) = some p ∧
      (∀ r ∈ p, r.alpha_3_code ≠ bad) ∧
      (bad ∈ uniqueKeys ((prepare e).map (fun r => r.alpha_3_code)) →
        bad ∈ (densifyLoop (synth (allDates (prepare e)) (prepare e))
          (uniqueKeys ((prepare e).map (fun r => r.alpha_3_code)))).2) := by
  rcases hsome with ⟨c0, hc0m, f0, hf0⟩
  have hf0mem : f0 ∈ (densifyLoop (synth (allDates (prepare e)) (prepare e))
      (uniqueKeys ((prepare e).map (fun r => r.alpha_3_code)))).1 :=
    densifyLoop_mem _ _ c0 hc0m f0 hf0
  cases hfr : (densifyLoop (synth (allDates (prepare e)) (prepare e))
      (uniqueKeys ((prepare e).map (fun r => r.alpha_3_code)))).1 with
  | nil =>
    rw [hfr] at hf0mem
    exact absurd hf0mem (List.not_mem_nil f0)
  | cons f fs =>
    refine ⟨replaceNames (applyOverrides (mergeRegions rg
      (addIndicators (sort_values countryDateLe ((f :: fs).flatten))))), ?_, ?_, ?_⟩
    · simp only [createFromSynth]
      rw [hfr]
    · intro r hr
      rcases finalize_mem_fwd rg _ r hr with ⟨rg2, hrg2, hcode, _⟩
      have hrg2b : rg2 ∈ addGrowth
          (panelMinDate (sort_values countryDateLe ((f :: fs).flatten))) none
          (sort_values countryDateLe ((f :: fs).flatten)) := hrg2
      rcases addGrowth_mem_core _ _ _ rg2 hrg2b with ⟨rs, hrs, hcore⟩
      have hrs2 : rs ∈ (f :: fs).flatten := mem_sort_values.1 hrs
      rcases List.mem_flatten.1 hrs2 with ⟨fa, hfa, hrsfa⟩
      rcases densifyLoop_frames _ _ fa (by rw [hfr]; exact hfa) with ⟨c2, _, hc2⟩
      have hrscode : rs.alpha_3_code = c2 := hrows c2 fa hc2 rs hrsfa
      intro hbadeq
      have hcode2 : rg2.alpha_3_code = rs.alpha_3_code :=
        (coreOf_fields rg2 rs hcore).2.2.2.2
      have : c2 = bad := by
        rw [← hrscode, ← hcode2, ← hcode, hbadeq]
      rw [this] at hc2
      rw [hbad] at hc2
      exact absurd hc2 (by simp)
    · intro hbadm
      exact (densifyLoop_skipped _ _ bad).2 ⟨hbadm, hbad⟩

/-- Synthesis used by the C9 witness: it raises exactly on the code `BBB` and
otherwise behaves like the source's per-country synthesis. -/
def c9Synth : List Nat → List Row → String → Option (List Row) :=
  fun all_dates df c => if c = "BBB" then none else fillCountry all_dates df c

/-- Raw feed used by the C9 witness: two entities, one of which will fail to
synthesise. -/
def c9Feed : List RawRow :=
  [sampleRaw "Aland" "AA" (some "AAA") 0 5 0 none,
   sampleRaw "Bland" "BB" (some "BBB") 1 7 0 none]

/-- Witness for C9: entity `BBB` fails, entity `AAA` succeeds; the panel is
produced without any `BBB` row and `BBB` is logged as skipped. -/
theorem c9_entity_skip_amended_witness :
    ∃ p, createFromSynth c9Synth (some c9Feed) (some []) (some []) = some p ∧
      (∀ r ∈ p, r.alpha_3_code ≠ "BBB") ∧
      ("BBB" ∈ uniqueKeys ((prepare c9Feed).map (fun r => r.alpha_3_code)) →
        "BBB" ∈ (densifyLoop (c9Synth (allDates (prepare c9Feed)) (prepare c9Feed))
          (uniqueKeys ((prepare c9Feed).map (fun r => r.alpha_3_code)))).2) := by
  refine c9_entity_skip_amended c9Synth c9Feed [] [] "BBB" rfl ?_ ?_
  · intro c f hf r hr
    by_cases hc : c = "BBB"
    · rw [hc] at hf
      exact absurd hf (by simp [c9Synth])
    · have hf2 : fillCountry (allDates (prepare c9Feed)) (prepare c9Feed) c = some f := by
        simpa [c9Synth, hc] using hf
      exact (fillCountry_mem _ _ _ _ hf2 r hr).1
  · have hval : c9Synth (allDates (prepare c9Feed)) (prepare c9Feed) "AAA" =
        some ((c9Synth (allDates (prepare c9Feed)) (prepare c9Feed) "AAA").getD []) := rfl
    exact ⟨"AAA", by decide, _, hval⟩

/-! ## Claim C1 -/

/-- C1 is a code bug: the entity-code table lists `ZZZ`, which is absent from
the raw feed; the source builds the zero-filled frame for `ZZZ` inside the
missing-countries loop (lines 242-249) but never appends it to `frames`, so
the assembled panel contains no `ZZZ` row at all — the panel here has exactly
one row (entity `AAA` on the single date) and zero `ZZZ` rows, while the
claim (and the function's own docstring, which promises that all countries
are included) requires one `ZZZ` row per date of the range. -/
theorem c1_missing_entity_rows_dropped :
    (create_country_level_dataset
      (some [sampleRaw "Aland" "AA" (some "AAA") 0 10 0 none])
      (some [(⟨"Aland", "AA", "AAA"⟩ : IsoRow), (⟨"Zland", "ZZ", "ZZZ"⟩ : IsoRow)])
      (some [])).map
      (fun p => (p.length, p.countP (fun r => r.alpha_3_code == "ZZZ"))) =
      some (1, 0) := by
  rfl

/-! ## Claim C2 -/

/-- C2 counterexample: one entity reports one death and no cases on the only
date; cumulative cases is 0 and cumulative deaths is 1, and the mortality
rate is `inf` (1/0 in pandas), not 0 — refuting the claim that mortality is
0 wherever cumulative cases is 0 regardless of cumulative deaths. -/
theorem c2_mortality_zero_counterexample :
    (create_country_level_dataset
      (some [sampleRaw "Aland" "AA" (some "AAA") 0 0 1 none]) (some []) (some [])).map
      (fun p => p.map (fun r => (r.cum_cases, r.cum_deaths, r.mortality_rate))) =
      some [(0, 1, Val.inf)] := by
  rfl

/-- C2 (amended): in the assembled panel the mortality rate is never NaN; on
a row with zero cumulative cases it is 0 when cumulative deaths is also 0
(the 0/0 NaN is filled with 0) and positive infinity otherwise (the x/0
division is not filled). -/
theorem c2_mortality_amended (e : List RawRow) (i : List IsoRow)
    (rg : List RegionRow) (p : List Row)
    (h : create_country_level_dataset (some e) (some i) (some rg) = some p) :
    ∀ r ∈ p, r.mortality_rate ≠ Val.nan ∧
      (r.cum_cases = 0 →
        r.mortality_rate = (if r.cum_deaths = 0 then Val.num 0 else Val.inf)) := by
  have h2 : createFromSynth fillCountry (some e) (some i) (some rg) = some p := h
  rcases createFromSynth_eq _ _ _ _ _ h2 with ⟨f, fs, _, hp⟩
  intro r hr
  rw [hp] at hr
  rcases finalize_mem_fwd rg _ r hr with ⟨rg2, hrg2, _, _, hcc, hcd, hmort, _, _, _⟩
  have hrg2b : rg2 ∈ addGrowth
      (panelMinDate (sort_values countryDateLe ((f :: fs).flatten))) none
      (sort_values countryDateLe ((f :: fs).flatten)) := hrg2
  have hmor2 := addGrowth_mortality _ _ _ rg2 hrg2b
  constructor
  · rw [hmort, hmor2]
    exact fillna0_ne_nan _
  · intro h0
    have hcr : rg2.cum_cases = 0 := by rw [← hcc]; exact h0
    rw [hmort, hmor2, hcr, fillna0_divVal_nat_zero, hcd]

/-- Witness for C2 on a concrete panel: the single row has one case and no
death, so its mortality rate is a number (hence not NaN), and the zero-cases
implication holds vacuously with a true hypothesis on a second zero row. -/
theorem c2_mortality_amended_witness :
    ((create_country_level_dataset
      (some [sampleRaw "Aland" "AA" (some "AAA") 0 0 0 none]) (some [])
      (some [])).getD []).headI.mortality_rate ≠ Val.nan ∧
    (((create_country_level_dataset
      (some [sampleRaw "Aland" "AA" (some "AAA") 0 0 0 none]) (some [])
      (some [])).getD []).headI.cum_cases = 0 →
      ((create_country_level_dataset
        (some [sampleRaw "Aland" "AA" (some "AAA") 0 0 0 none]) (some [])
        (some [])).getD []).headI.mortality_rate =
        (if ((create_country_level_dataset
          (some [sampleRaw "Aland" "AA" (some "AAA") 0 0 0 none]) (some [])
          (some [])).getD []).headI.cum_deaths = 0 then Val.num 0 else Val.inf)) := by
  have hsome : create_country_level_dataset
      (some [sampleRaw "Aland" "AA" (some "AAA") 0 0 0 none]) (some []) (some []) =
      some ((create_country_level_dataset
        (some [sampleRaw "Aland" "AA" (some "AAA") 0 0 0 none]) (some [])
        (some [])).getD []) := rfl
  exact c2_mortality_amended _ _ _ _ hsome _ (by decide)

/-! ## Claim C4 -/

/-- C4: for every fixed entity of the assembled panel, the cumulative cases
and cumulative deaths columns are monotonically non-decreasing along
ascending date. -/
theorem c4_cumulative_monotone (e : List RawRow) (i : List IsoRow)
    (rg : List RegionRow) (p : List Row)
    (h : create_country_level_dataset (some e) (some i) (some rg) = some p) :
    ∀ r1 ∈ p, ∀ r2 ∈ p, r1.alpha_3_code = r2.alpha_3_code →
      r1.date_rep < r2.date_rep →
      r1.cum_cases ≤ r2.cum_cases ∧ r1.cum_deaths ≤ r2.cum_deaths := by
  have h2 : createFromSynth fillCountry (some e) (some i) (some rg) = some p := h
  rcases createFromSynth_eq _ _ _ _ _ h2 with ⟨f, fs, hframes, hp⟩
  intro r1 hr1 r2 hr2 hcode hdate
  rw [hp] at hr1 hr2
  rcases finalize_mem_fwd rg _ r1 hr1 with ⟨g1, hg1, hc1, hd1, hcc1, hcd1, _⟩
  rcases finalize_mem_fwd rg _ r2 hr2 with ⟨g2, hg2, hc2, hd2, hcc2, hcd2, _⟩
  have hg1b : g1 ∈ addGrowth
      (panelMinDate (sort_values countryDateLe ((f :: fs).flatten))) none
      (sort_values countryDateLe ((f :: fs).flatten)) := hg1
  have hg2b : g2 ∈ addGrowth
      (panelMinDate (sort_values countryDateLe ((f :: fs).flatten))) none
      (sort_values countryDateLe ((f :: fs).flatten)) := hg2
  rcases addGrowth_mem_core _ _ _ g1 hg1b with ⟨s1, hs1, hcore1⟩
  rcases addGrowth_mem_core _ _ _ g2 hg2b with ⟨s2, hs2, hcore2⟩
  rcases coreOf_fields g1 s1 hcore1 with ⟨hpd1, hpcc1, hpcd1, _, hpc1⟩
  rcases coreOf_fields g2 s2 hcore2 with ⟨hpd2, hpcc2, hpcd2, _, hpc2⟩
  have hscode : s1.alpha_3_code = s2.alpha_3_code := by
    rw [← hpc1, ← hpc2, ← hc1, ← hc2]
    exact hcode
  have hsdate : s1.date_rep < s2.date_rep := by
    rw [← hpd1, ← hpd2, ← hd1, ← hd2]
    exact hdate
  have hmono := s_cum_mono_set e (f :: fs) _ hframes rfl s1 hs1 s2 hs2 hscode hsdate
  constructor
  · rw [hcc1, hcc2, hpcc1, hpcc2]
    exact hmono.1
  · rw [hcd1, hcd2, hpcd1, hpcd2]
    exact hmono.2

unseal Rat.inv Rat.mul Rat.add Rat.sub in
/-- Witness for C4 on a concrete two-date panel: the first row's cumulative
counters are bounded by the second row's. -/
theorem c4_cumulative_monotone_witness :
    ((create_country_level_dataset
      (some [sampleRaw "Aland" "AA" (some "AAA") 0 3 1 none,
             sampleRaw "Aland" "AA" (some "AAA") 1 4 2 none]) (some [])
      (some [])).getD []).headI.cum_cases ≤
      (((create_country_level_dataset
        (some [sampleRaw "Aland" "AA" (some "AAA") 0 3 1 none,
               sampleRaw "Aland" "AA" (some "AAA") 1 4 2 none]) (some [])
        (some [])).getD []).getLastI).cum_cases ∧
    ((create_country_level_dataset
      (some [sampleRaw "Aland" "AA" (some "AAA") 0 3 1 none,
             sampleRaw "Aland" "AA" (some "AAA") 1 4 2 none]) (some [])
      (some [])).getD []).headI.cum_deaths ≤
      (((create_country_level_dataset
        (some [sampleRaw "Aland" "AA" (some "AAA") 0 3 1 none,
               sampleRaw "Aland" "AA" (some "AAA") 1 4 2 none]) (some [])
        (some [])).getD []).getLastI).cum_deaths := by
  have hsome : create_country_level_dataset
      (some [sampleRaw "Aland" "AA" (some "AAA") 0 3 1 none,
             sampleRaw "Aland" "AA" (some "AAA") 1 4 2 none]) (some []) (some []) =
      some ((create_country_level_dataset
        (some [sampleRaw "Aland" "AA" (some "AAA") 0 3 1 none,
               sampleRaw "Aland" "AA" (some "AAA") 1 4 2 none]) (some [])
        (some [])).getD []) := rfl
  exact c4_cumulative_monotone _ _ _ _ hsome _ (by decide) _ (by decide)
    (by decide) (by decide)

/-! ## Claim C8 -/

/-- C8: every row of the final panel whose display name is an override key
carries the override continent, whatever the region join produced; rows of
entities matched by no region entry and outside the override table keep null
continent and region labels. -/
theorem c8_continent_overrides (e : List RawRow) (i : List IsoRow)
    (rg : List RegionRow) (p : List Row)
    (h : create_country_level_dataset (some e) (some i) (some rg) = some p) :
    ∀ r ∈ p,
      (r.country = "Kosovo" → r.continent = some "Europe") ∧
      (r.country = "Taiwan" → r.continent = some "Asia") ∧
      (r.country = "Bonaire" → r.continent = some "South America") ∧
      ((∀ g ∈ rg, g.iso_alpha3_code ≠ r.alpha_3_code) →
        r.country ≠ "Kosovo" → r.country ≠ "Taiwan" → r.country ≠ "Bonaire" →
        r.continent = none ∧ r.region_1 = none ∧ r.region_2 = none) := by
  have h2 : createFromSynth fillCountry (some e) (some i) (some rg) = some p := h
  rcases createFromSynth_eq _ _ _ _ _ h2 with ⟨f, fs, _, hp⟩
  intro r hr
  rw [hp] at hr
  rw [replaceNames_eq] at hr
  rcases List.mem_map.1 hr with ⟨y, hy, hyx⟩
  rw [applyOverrides_eq] at hy
  rcases List.mem_map.1 hy with ⟨z, hz, hzy⟩
  have hcountry : r.country = replaceUnderscores z.country := by
    rw [← hyx, ← hzy]
    show replaceUnderscores (overrideOne z).country = replaceUnderscores z.country
    rw [(overrideOne_fields z).2.2.2.2.1]
  have hcont : r.continent = (overrideOne z).continent := by
    rw [← hyx, ← hzy]
  refine ⟨?_, ?_, ?_, ?_⟩
  · intro hk
    have hzc : z.country = "Kosovo" := by
      refine replaceUnderscores_preimage z.country "Kosovo" (by decide) ?_
      rw [← hcountry]
      exact hk
    rw [hcont]
    unfold overrideOne
    rw [if_pos hzc]
  · intro hk
    have hzc : z.country = "Taiwan" := by
      refine replaceUnderscores_preimage z.country "Taiwan" (by decide) ?_
      rw [← hcountry]
      exact hk
    rw [hcont]
    unfold overrideOne
    rw [if_neg (by rw [hzc]; decide), if_pos hzc]
  · intro hk
    have hzc : z.country = "Bonaire" := by
      refine replaceUnderscores_preimage z.country "Bonaire" (by decide) ?_
      rw [← hcountry]
      exact hk
    rw [hcont]
    unfold overrideOne
    rw [if_neg (by rw [hzc]; decide), if_neg (by rw [hzc]; decide), if_pos hzc]
  · intro hnone hk ht hb
    have hzk : z.country ≠ "Kosovo" := by
      intro hc
      exact hk (by rw [hcountry, hc]; exact replaceUnderscores_keys.1)
    have hzt : z.country ≠ "Taiwan" := by
      intro hc
      exact ht (by rw [hcountry, hc]; exact replaceUnderscores_keys.2.1)
    have hzb : z.country ≠ "Bonaire" := by
      intro hc
      exact hb (by rw [hcountry, hc]; exact replaceUnderscores_keys.2.2)
    have hover : overrideOne z = z := overrideOne_not_key z hzk hzt hzb
    have hzcode : r.alpha_3_code = z.alpha_3_code := by
      rw [← hyx, ← hzy]
      exact (overrideOne_fields z).1
    have hnone2 : ∀ g ∈ rg, ¬(g.iso_alpha3_code = z.alpha_3_code) := by
      intro g hg hc
      exact hnone g hg (hc.trans hzcode.symm)
    rcases mergeRegions_unmatched rg _ z hz hnone2 with ⟨hreg1, hreg2, hreg3⟩
    refine ⟨?_, ?_, ?_⟩
    · rw [hcont, hover]
      exact hreg3
    · rw [← hyx, ← hzy]
      show (overrideOne z).region_1 = none
      rw [(overrideOne_fields z).2.2.2.2.2.2.2.2.1]
      exact hreg1
    · rw [← hyx, ← hzy]
      show (overrideOne z).region_2 = none
      rw [(overrideOne_fields z).2.2.2.2.2.2.2.2.2]
      exact hreg2

unseal Rat.inv Rat.mul Rat.add Rat.sub in
/-- Witness for C8: the region table classifies Kosovo's code as Asia, yet
the final panel shows Europe by the forced override; a second entity matched
by no region entry keeps null labels. -/
theorem c8_continent_overrides_witness :
    (((create_country_level_dataset
      (some [sampleRaw "Kosovo" "XK" (some "XKX") 0 2 0 none,
             sampleRaw "Nland" "NN" (some "NNN") 0 1 0 none])
      (some [])
      (some [(⟨"XKX", "Southern Europe", "Balkans", "Asia"⟩ : RegionRow)])).getD
        []).headI.continent = some "Europe") ∧
    ((((create_country_level_dataset
      (some [sampleRaw "Kosovo" "XK" (some "XKX") 0 2 0 none,
             sampleRaw "Nland" "NN" (some "NNN") 0 1 0 none])
      (some [])
      (some [(⟨"XKX", "Southern Europe", "Balkans", "Asia"⟩ : RegionRow)])).getD
        []).getLastI).continent = none) := by
  have hsome : create_country_level_dataset
      (some [sampleRaw "Kosovo" "XK" (some "XKX") 0 2 0 none,
             sampleRaw "Nland" "NN" (some "NNN") 0 1 0 none])
      (some [])
      (some [(⟨"XKX", "Southern Europe", "Balkans", "Asia"⟩ : RegionRow)]) =
      some ((create_country_level_dataset
        (some [sampleRaw "Kosovo" "XK" (some "XKX") 0 2 0 none,
               sampleRaw "Nland" "NN" (some "NNN") 0 1 0 none])
        (some [])
        (some [(⟨"XKX", "Southern Europe", "Balkans", "Asia"⟩ : RegionRow)])).getD
          []) := rfl
  have h := c8_continent_overrides _ _ _ _ hsome
  constructor
  · exact (h _ (by decide)).1 (by decide)
  · exact ((h _ (by decide)).2.2.2 (by decide) (by decide) (by decide) (by decide)).1

/-! ## Claim C3 -/

unseal Rat.inv Rat.mul Rat.add Rat.sub in
/-- C3 counterexample: entities `AAA` and `BBB` share the display name `Foo`;
the sort by `["country", "date_rep"]` interleaves their rows and `pct_change`
pairs each row with the preceding row of the other entity.  The third row
(`AAA`, date 1) directly follows a `BBB` row yet carries a non-null growth
rate, and the last row's rate is 4, computed from `AAA`'s cumulative 20
rather than `BBB`'s own previous cumulative 10 (the within-entity percent
change of 10 to 100 is 9) — the sequential percent-change leaks across the
entity boundary. -/
theorem c3_growth_leak_counterexample :
    (create_country_level_dataset
      (some [sampleRaw "Foo" "AA" (some "AAA") 0 10 0 none,
             sampleRaw "Foo" "AA" (some "AAA") 1 10 0 none,
             sampleRaw "Foo" "BB" (some "BBB") 0 10 0 none,
             sampleRaw "Foo" "BB" (some "BBB") 1 90 0 none]) (some [])
      (some [])).map
      (fun p => p.map (fun r =>
        (r.alpha_3_code, r.date_rep, r.cum_cases, r.infections_growth_rate))) =
      some [("AAA", 0, 10, Val.nan), ("BBB", 0, 10, Val.nan),
            ("AAA", 1, 20, Val.num 1), ("BBB", 1, 100, Val.num 4)] ∧
    pctChange 10 100 = Val.num 9 := by
  exact ⟨rfl, rfl⟩

/-- C3 (amended): when the display names of the prepared feed identify the
alpha-3 codes (no name collision across entities), the assembled panel obeys
the growth-rate discipline: across an entity boundary the later row's growth
rates are null; within an entity a zero previous cumulative counter forces a
null growth rate; and every row whose own cumulative counter is zero, as
well as every row dated at the panel minimum date, carries null growth
rates. -/
theorem c3_growth_rates_amended (e : List RawRow) (i : List IsoRow)
    (rg : List RegionRow) (p : List Row)
    (h : create_country_level_dataset (some e) (some i) (some rg) = some p)
    (hnames : ∀ r1 ∈ prepare e, ∀ r2 ∈ prepare e,
      (r1.country = r2.country ↔ r1.alpha_3_code = r2.alpha_3_code)) :
    List.Chain' c3Step p ∧ ∀ r ∈ p, rowInv (panelMinDate (prepare e)) r := by
  have h2 : createFromSynth fillCountry (some e) (some i) (some rg) = some p := h
  rcases createFromSynth_eq _ _ _ _ _ h2 with ⟨f, fs, hframes, hp⟩
  have hchainpre := s_chain_pre e (f :: fs)
    (sort_values countryDateLe ((f :: fs).flatten)) hframes rfl hnames
  have hfm : f ∈ (densifyLoop (fillCountry (allDates (prepare e)) (prepare e))
      (uniqueKeys ((prepare e).map (fun r => r.alpha_3_code)))).1 := by
    rw [hframes]
    exact List.mem_cons_self f fs
  have hsne : sort_values countryDateLe ((f :: fs).flatten) ≠ [] := by
    rcases densifyLoop_frames _ _ f hfm with ⟨c, _, hc⟩
    rcases List.exists_mem_of_ne_nil f (fillCountry_ne_nil _ _ _ _ hc) with ⟨x, hx⟩
    intro hnil
    have hxs : x ∈ sort_values countryDateLe ((f :: fs).flatten) :=
      mem_sort_values.2 (List.mem_flatten.2 ⟨f, List.mem_cons_self f fs, hx⟩)
    rw [hnil] at hxs
    exact List.not_mem_nil x hxs
  have hmin := s_min_eq e (f :: fs)
    (sort_values countryDateLe ((f :: fs).flatten)) hframes rfl hsne
  have hgrow := addGrowth_c3 (panelMinDate (prepare e))
    (sort_values countryDateLe ((f :: fs).flatten)) none hchainpre
    (by intro a ha; exact absurd ha (by simp))
  have hind : addIndicators (sort_values countryDateLe ((f :: fs).flatten)) =
      addGrowth (panelMinDate (prepare e)) none
        (sort_values countryDateLe ((f :: fs).flatten)) := by
    unfold addIndicators
    rw [hmin]
  have hch : List.Chain' c3Step
      (addIndicators (sort_values countryDateLe ((f :: fs).flatten))) := by
    rw [hind]
    exact hgrow.1
  have hrow : ∀ r ∈ addIndicators (sort_values countryDateLe ((f :: fs).flatten)),
      rowInv (panelMinDate (prepare e)) r := by
    rw [hind]
    exact hgrow.2
  rcases finalize_chain (panelMinDate (prepare e)) rg
    (addIndicators (sort_values countryDateLe ((f :: fs).flatten))) hch hrow with
    ⟨hc, hi⟩
  rw [hp]
  exact ⟨hc, hi⟩

unseal Rat.inv Rat.mul Rat.add Rat.sub in
/-- Witness for C3 (amended) on a two-entity panel with distinct display
names: the adjacency chain and the per-row invariant hold on the assembled
rows. -/
theorem c3_growth_rates_amended_witness :
    List.Chain' c3Step ((create_country_level_dataset
      (some [sampleRaw "Aland" "AA" (some "AAA") 0 1 0 none,
             sampleRaw "Bland" "BB" (some "BBB") 0 2 1 none]) (some [])
      (some [])).getD []) ∧
    ∀ r ∈ ((create_country_level_dataset
      (some [sampleRaw "Aland" "AA" (some "AAA") 0 1 0 none,
             sampleRaw "Bland" "BB" (some "BBB") 0 2 1 none]) (some [])
      (some [])).getD []),
      rowInv (panelMinDate (prepare
        [sampleRaw "Aland" "AA" (some "AAA") 0 1 0 none,
         sampleRaw "Bland" "BB" (some "BBB") 0 2 1 none])) r := by
  have hsome : create_country_level_dataset
      (some [sampleRaw "Aland" "AA" (some "AAA") 0 1 0 none,
             sampleRaw "Bland" "BB" (some "BBB") 0 2 1 none]) (some []) (some []) =
      some ((create_country_level_dataset
        (some [sampleRaw "Aland" "AA" (some "AAA") 0 1 0 none,
               sampleRaw "Bland" "BB" (some "BBB") 0 2 1 none]) (some [])
        (some [])).getD []) := rfl
  exact c3_growth_rates_amended _ _ _ _ hsome (by decide)

end Covid
